import Mathlib

/-!
Verification of the 2D skeletal-animation kinematics core
(bone / chain data model, FK propagation, joint-limit test, CCD and
two-segment analytic IK solvers) against its natural-language
specification.

The definitions below are a shallow embedding of the TypeScript sources:

* `Bone`, its mutators (`setInitial`, `setTerminal`, `moveInitial`,
  `rotate`, `moveAndRotate`, `reorient`, the `orientation` setter) and the
  joint-limit test `Bone.isInLimit` come from
  `src/app/shared/libs/rigs/bone.ts` (and `base-bone.ts` for defaults);
* chain-level FK propagation (`propagateMove`, `propagateMAR`,
  `chainRotate`, ...) mirrors the `NEXT`-linked recursion of the bone
  mutators together with `chain.ts`;
* `ccdBasic` / `ccdBasicPinned` and `limbSolver` / `getRotation` /
  `isClockwise` come from `src/app/shared/libs/ik-solvers/ccd-basic.ts`;
* `popChain` models `Chain.pop` from `chain.ts` over a discrete
  abstraction of the chain bookkeeping (ids and `IS_END` / `NEXT` flags).

JavaScript numbers are modelled by real numbers, `Math.atan2 y x` by the
complex argument of `x + i y`, and the mid-method crash of `Chain.pop`
on a one-bone chain by an `Option` result.
-/

namespace Kinematics

/-! ## Discrete model of chain bookkeeping, for `Chain.pop` -/

/-- Discrete abstraction of a bone as stored by `Chain`: an identifier plus
the `IS_END` flag and whether its `NEXT` reference is non-null. -/
structure PBone where
  pid : Nat
  isEnd : Bool
  hasNext : Bool
deriving DecidableEq

/-- `Chain.pop` from `chain.ts`: `_bones.pop()` removes the last element,
`_count = _bones.length`, then `_terminalBone = _bones[_count-1]` is read and
its `IS_END` / `NEXT` fields are written.  When the popped chain is empty that
read yields `undefined` and the two writes throw, which is modelled by
returning `none`. -/
def popChain (bones : List PBone) : Option (List PBone) :=
  let bs := bones.dropLast
  match bs.getLast? with
  | none => none
  | some b => some (bs.dropLast ++ [{ b with isEnd := true, hasNext := false }])

/-! ## Real-number embedding of the geometric core -/

noncomputable section

open Real Classical

/-- `Math.atan2 y x`, modelled as the argument of the complex number
`x + i y` (both have range `(-π, π]` and send the origin to `0`). -/
def atan2 (y x : ℝ) : ℝ := Complex.arg ⟨x, y⟩

theorem sin_atan2 (y x : ℝ) : Real.sin (atan2 y x) = y / Real.sqrt (x * x + y * y) := by
  have h := Complex.sin_arg (⟨x, y⟩ : ℂ)
  rwa [Complex.abs_apply, Complex.normSq_mk] at h

theorem cos_atan2 (y x : ℝ) (h : ¬(x = 0 ∧ y = 0)) :
    Real.cos (atan2 y x) = x / Real.sqrt (x * x + y * y) := by
  have hz : (⟨x, y⟩ : ℂ) ≠ 0 := by
    intro hc
    exact h ⟨congrArg Complex.re hc, congrArg Complex.im hc⟩
  have h' := Complex.cos_arg hz
  rwa [Complex.abs_apply, Complex.normSq_mk] at h'

theorem atan2_zero_zero : atan2 0 0 = 0 := by
  have : (⟨0, 0⟩ : ℂ) = 0 := by
    apply Complex.ext <;> simp
  rw [atan2, this, Complex.arg_zero]

theorem atan2_zero_of_pos (x : ℝ) (hx : 0 ≤ x) : atan2 0 x = 0 := by
  have : (⟨x, 0⟩ : ℂ) = (x : ℂ) := by
    apply Complex.ext <;> simp
  rw [atan2, this, Complex.arg_ofReal_of_nonneg hx]

theorem atan2_nonneg (y x : ℝ) (hy : 0 ≤ y) : 0 ≤ atan2 y x :=
  Complex.arg_nonneg_iff.mpr hy

theorem atan2_le_pi (y x : ℝ) : atan2 y x ≤ π := Complex.arg_le_pi _

theorem neg_pi_lt_atan2 (y x : ℝ) : -π < atan2 y x := Complex.neg_pi_lt_arg _

/-- Normalisation of an angle as done throughout `bone.ts`:
`rad >= 0 ? rad : TWO_PI + rad`. -/
def normalizeAngle (rad : ℝ) : ℝ := if rad ≥ 0 then rad else 2 * π + rad

/-- The geometric state of a `Bone` (`bone.ts` / `base-bone.ts`): both joints,
the cached joint delta, cached length, the raw orientation angle, and the
rotational-limit configuration. -/
structure Bone where
  x0 : ℝ
  y0 : ℝ
  x1 : ℝ
  y1 : ℝ
  deltaX : ℝ
  deltaY : ℝ
  length : ℝ
  angle : ℝ
  lowerLimit : ℝ
  upperLimit : ℝ
  unconstrained : Bool

namespace Bone

/-- A freshly initialised bone: `Bone.init()` zeroes the geometry, and the
`BaseBone` constructor sets limits `±2π` with `_unconstrained = true`. -/
def mk0 : Bone :=
  { x0 := 0, y0 := 0, x1 := 0, y1 := 0, deltaX := 0, deltaY := 0
    length := 0, angle := 0
    lowerLimit := -(2 * π), upperLimit := 2 * π, unconstrained := true }

/-- `Bone.setInitial(cX, cY, updateLength)`. -/
def setInitial (b : Bone) (cX cY : ℝ) (updateLength : Bool) : Bone :=
  let b' : Bone := { b with x0 := cX, y0 := cY }
  if updateLength then
    let dX := b'.x1 - b'.x0
    let dY := b'.y1 - b'.y0
    { b' with deltaX := dX, deltaY := dY, length := Real.sqrt (dX * dX + dY * dY) }
  else b'

/-- `Bone.setTerminal(cX, cY)` (with no draw in progress). -/
def setTerminal (b : Bone) (cX cY : ℝ) : Bone :=
  let dX := cX - b.x0
  let dY := cY - b.y0
  { b with x1 := cX, y1 := cY, deltaX := dX, deltaY := dY
           length := Real.sqrt (dX * dX + dY * dY), angle := atan2 dY dX }

/-- The per-bone state change of `Bone.moveInitial(toX, toY)` (`Bone.move`
delegates here); FK propagation to `NEXT` is modelled at the chain level. -/
def moveInitial (b : Bone) (toX toY : ℝ) : Bone :=
  let dX := toX - b.x0
  let dY := toY - b.y0
  { b with x0 := toX, y0 := toY, x1 := b.x1 + dX, y1 := b.y1 + dY }

/-- The per-bone state change of `Bone.rotate(deltaAngle, c, s)` with the
cosine and sine supplied (as in FK propagation). -/
def rotateCS (b : Bone) (deltaAngle c1 s1 : ℝ) : Bone :=
  let dx := b.deltaX * c1 - b.deltaY * s1
  let dy := b.deltaX * s1 + b.deltaY * c1
  { b with angle := b.angle + deltaAngle, x1 := dx + b.x0, y1 := dy + b.y0
           deltaX := dx, deltaY := dy }

/-- `Bone.rotate(deltaAngle)` with the trigonometric values computed locally
(the `c`/`s` arguments omitted). -/
def rotate (b : Bone) (deltaAngle : ℝ) : Bone :=
  b.rotateCS deltaAngle (Real.cos deltaAngle) (Real.sin deltaAngle)

/-- The per-bone state change of `Bone.moveAndRotate(toX, toY, deltaAngle, c, s)`. -/
def moveAndRotateCS (b : Bone) (toX toY deltaAngle c1 s1 : ℝ) : Bone :=
  let b' : Bone := { b with x0 := toX, y0 := toY, angle := b.angle + deltaAngle }
  let dx := b'.deltaX * c1 - b'.deltaY * s1
  let dy := b'.deltaX * s1 + b'.deltaY * c1
  { b' with x1 := dx + b'.x0, y1 := dy + b'.y0, deltaX := dx, deltaY := dy }

/-- `Bone.moveAndRotate` with locally computed cosine and sine. -/
def moveAndRotate (b : Bone) (toX toY deltaAngle : ℝ) : Bone :=
  b.moveAndRotateCS toX toY deltaAngle (Real.cos deltaAngle) (Real.sin deltaAngle)

/-- `Bone.reorient(toX, toY, angle, move, rotate)`: direct reassignment of the
orientation (and optionally the initial joint) without FK propagation; the
`rotate` flag only affects the render sprite. -/
def reorient (b : Bone) (toX toY angle : ℝ) (move : Bool) : Bone :=
  let b' : Bone := { b with angle := angle }
  let b'' : Bone := if move then { b' with x0 := toX, y0 := toY } else b'
  { b'' with x1 := b''.x0 + b''.length * Real.cos angle
             y1 := b''.y0 + b''.length * Real.sin angle }

/-- `Bone.__isInLimit(lower, upper, child)` from `bone.ts`. -/
def isInLimit (lower upper child : ℝ) : Prop :=
  if lower > upper then
    if child ≥ π ∧ child ≤ 2 * π then child ≥ lower ∧ child ≤ 2 * π + upper
    else child + 2 * π ≥ lower ∧ child ≤ upper
  else child ≥ lower ∧ child ≤ upper

/-- Absolute lower limit as computed in the `Bone.orientation` setter:
`lower = p0 + lowerLimit; lower = lower > 0 ? lower : TWO_PI + lower`. -/
def limitLowerAbs (p0 lo : ℝ) : ℝ :=
  if p0 + lo > 0 then p0 + lo else 2 * π + (p0 + lo)

/-- Absolute upper limit as computed in the `Bone.orientation` setter:
`upper = p0 + upperLimit; upper = upper <= TWO_PI ? upper : upper - TWO_PI`. -/
def limitUpperAbs (p0 up : ℝ) : ℝ :=
  if p0 + up ≤ 2 * π then p0 + up else p0 + up - 2 * π

/-- The delta-angle computation of the `Bone.orientation` setter: the raw
difference of normalized orientations, folded back into `(-π, π]`-ish range
when it jumps across the `0`/`2π` seam. -/
def deltaAdjust (angle orient : ℝ) : ℝ :=
  let dA0 := angle - orient
  if |dA0| > π then (if dA0 < 0 then dA0 + 2 * π else dA0 - 2 * π) else dA0

/-- The `Bone.orientation` setter.  `parentEnd` is the `endOrientation` of
`PREV` (or of `_linkedTo`) when such a parent exists.  The per-bone state
change only; forward FK propagation is modelled at the chain level. -/
def setOrientation (b : Bone) (parentEnd : Option ℝ) (rad : ℝ) : Bone :=
  let orient := normalizeAngle b.angle
  let angle := normalizeAngle rad
  let dA := deltaAdjust angle orient
  let allowed : Prop :=
    b.unconstrained = true ∨
      match parentEnd with
      | none => True
      | some p0 => isInLimit (limitLowerAbs p0 b.lowerLimit) (limitUpperAbs p0 b.upperLimit) angle
  if allowed then
    let c := Real.cos dA
    let s := Real.sin dA
    let ndx := b.deltaX * c - b.deltaY * s
    let ndy := b.deltaX * s + b.deltaY * c
    { b with angle := angle, x1 := ndx + b.x0, y1 := ndy + b.y0
             deltaX := ndx, deltaY := ndy
             length := Real.sqrt (ndx * ndx + ndy * ndy) }
  else b

/-- The `Bone.orientation` getter:
`_angle >= 0 ? _angle : TWO_PI + _angle`. -/
def orientation (b : Bone) : ℝ := normalizeAngle b.angle

end Bone

/-- Convenience constructor used by the concrete test chains: a default bone
whose joints are assigned through `setInitial` / `setTerminal`, exactly as
`Chain.addBoneAt` does. -/
def mkBone (ix iy tx ty : ℝ) : Bone :=
  (Bone.mk0.setInitial ix iy true).setTerminal tx ty

/-- `Connector.__isInLimit(lower, upper, child)` from the `Connector` class
(deliberately duplicated from `Bone` in the source). -/
def Connector.isInLimit (lower upper child : ℝ) : Prop :=
  if lower > upper then
    if child ≥ π ∧ child ≤ 2 * π then child ≥ lower ∧ child ≤ 2 * π + upper
    else child + 2 * π ≥ lower ∧ child ≤ upper
  else child ≥ lower ∧ child ≤ upper

/-- The joint-limit containment formula exactly as the specification states
it: standard containment when `lower <= upper`; for `lower > upper`,
`candidate ∈ [lower, 2π+upper]` when `candidate ≥ π`, else
`candidate+2π ∈ [lower, 2π] ∧ candidate ≤ upper`. -/
def isInLimitSpec (lower upper candidate : ℝ) : Prop :=
  if lower ≤ upper then lower ≤ candidate ∧ candidate ≤ upper
  else if candidate ≥ π then lower ≤ candidate ∧ candidate ≤ 2 * π + upper
  else (lower ≤ candidate + 2 * π ∧ candidate + 2 * π ≤ 2 * π) ∧ candidate ≤ upper

/-! ## Chain-level forward kinematics

A chain is an ordered list of bones, root first.  The bone mutators recurse
through `NEXT`, so `Chain.move` / `Chain.rotate` / `Chain.moveAndRotate`
(which delegate to the root bone) become structural recursions over the
list. -/

/-- `Bone.moveInitial` including its FK recursion
`NEXT.moveInitial(x1, y1)`. -/
def propagateMove : List Bone → ℝ → ℝ → List Bone
  | [], _, _ => []
  | b :: rest, toX, toY =>
    let b' := b.moveInitial toX toY
    b' :: propagateMove rest b'.x1 b'.y1

/-- `Chain.move(toX, toY)` = `_rootBone.moveInitial(toX, toY)`. -/
def chainMove (bs : List Bone) (toX toY : ℝ) : List Bone := propagateMove bs toX toY

/-- `Bone.moveAndRotate` including its FK recursion
`NEXT.moveAndRotate(x1, y1, deltaAngle, c, s)`. -/
def propagateMAR : List Bone → ℝ → ℝ → ℝ → ℝ → ℝ → List Bone
  | [], _, _, _, _, _ => []
  | b :: rest, toX, toY, dA, c1, s1 =>
    let b' := b.moveAndRotateCS toX toY dA c1 s1
    b' :: propagateMAR rest b'.x1 b'.y1 dA c1 s1

/-- `Chain.rotate(deltaAngle)` = `_rootBone.rotate(deltaAngle)`: the root
computes `cos`/`sin` once and the rest of the chain receives
`moveAndRotate`. -/
def chainRotate : List Bone → ℝ → List Bone
  | [], _ => []
  | b :: rest, dA =>
    let b' := b.rotateCS dA (Real.cos dA) (Real.sin dA)
    b' :: propagateMAR rest b'.x1 b'.y1 dA (Real.cos dA) (Real.sin dA)

/-- `Chain.moveAndRotate(toX, toY, deltaAngle)` =
`_rootBone.moveAndRotate(toX, toY, deltaAngle, cos, sin)`. -/
def chainMoveAndRotate (bs : List Bone) (toX toY dA : ℝ) : List Bone :=
  propagateMAR bs toX toY dA (Real.cos dA) (Real.sin dA)

/-- The chain's end-effector position
(`Chain.terminalX` / `Chain.terminalY`). -/
def chainTerminal (bs : List Bone) : ℝ × ℝ :=
  match bs.getLast? with
  | some b => (b.x1, b.y1)
  | none => (0, 0)

/-! ## The iterative CCD solver (`ccdBasic` in `ccd-basic.ts`) -/

/-- `stop`: squared-distance stopping criterion of `ccdBasic`. -/
def ccdStop : ℝ := 4

/-- `maxCycles` of `ccdBasic`. -/
def ccdMaxCycles : Nat := 3

/-- The target phase of `ccdBasic`, walking the bones from terminal to root
(the argument list is the chain reversed): for each bone, aim from its
current initial joint at the running virtual target and step the target back
along that direction by the bone's length.  Produces the successive virtual
targets in processing order. -/
def targetSteps : List Bone → ℝ × ℝ → List (ℝ × ℝ)
  | [], _ => []
  | b :: rest, t =>
    let rot := atan2 (t.2 - b.y0) (t.1 - b.x0)
    let t' := (t.1 - b.length * Real.cos rot, t.2 - b.length * Real.sin rot)
    t' :: targetSteps rest t'

/-- Assemble the `_recordX`/`_recordY` arrays and the final current target of
the target phase: with virtual targets `c(n-1), ..., c(0)` produced in
processing order, the code stores `record[j] = c(j+1)` for `j < n-1` and
`record[n-1] = c(0)`, and leaves `_curTarget = c(0)`. -/
def ccdTargets (bs : List Bone) (t : ℝ × ℝ) : List (ℝ × ℝ) × (ℝ × ℝ) :=
  match (targetSteps bs.reverse t).reverse with
  | [] => ([], t)
  | c0 :: cs => (cs ++ [c0], c0)

/-- The position phase of `ccdBasic` for the bones after the root: interior
bones get `setInitial` from the previous bone's just-set terminal and
`setTerminal` from their recorded target (shifted by `delta`); the final bone
gets `setInitial` from the previous terminal and is oriented directly at the
true target through the `orientation` setter (whose parent is `PREV`). -/
def positionRest (target delta : ℝ × ℝ) : Bone → List Bone → List (ℝ × ℝ) → List Bone
  | _, [], _ => []
  | prev, b :: rest, recs =>
    match rest with
    | [] =>
      let bi := b.setInitial prev.x1 prev.y1 false
      let rad := atan2 (target.2 - prev.y1) (target.1 - prev.x1)
      [bi.setOrientation (some prev.orientation) rad]
    | _ :: _ =>
      match recs with
      | [] => b :: rest
      | r :: rs =>
        let b' := (b.setInitial prev.x1 prev.y1 false).setTerminal (r.1 - delta.1) (r.2 - delta.2)
        b' :: positionRest target delta b' rest rs

/-- One full target-plus-position pass of `ccdBasic`.  The root bone is
fixed: only its terminal joint is set, to `record[0] - delta` where `delta`
is the residual between the final virtual target and the root's initial
joint. -/
def ccdCycle (bs : List Bone) (t : ℝ × ℝ) : List Bone :=
  match bs with
  | [] => []
  | b0 :: rest =>
    let rc := ccdTargets (b0 :: rest) t
    let delta := (rc.2.1 - b0.x0, rc.2.2 - b0.y0)
    match rc.1 with
    | [] => b0 :: rest
    | r0 :: rrest =>
      let b0' := b0.setTerminal (r0.1 - delta.1) (r0.2 - delta.2)
      b0' :: positionRest t delta b0' rest rrest

/-- The solver loop of `ccdBasic`: run a cycle, then test the squared
distance between the chain's actual terminal point and the true target; the
loop leaves through the single `return true` when the error is within `stop`
or the cycle budget is spent.  The fuel argument makes the recursion
structural; the fuel-exhausted arm corresponds to the (unreachable)
`return false` at the end of the function. -/
def ccdLoop (t : ℝ × ℝ) : Nat → Nat → List Bone → List Bone × Bool
  | 0, _, bs => (bs, false)
  | fuel + 1, cycles, bs =>
    let bs' := ccdCycle bs t
    let e := (t.1 - (chainTerminal bs').1) ^ 2 + (t.2 - (chainTerminal bs').2) ^ 2
    if e ≤ ccdStop ∨ cycles ≥ ccdMaxCycles then (bs', true)
    else ccdLoop t fuel (cycles + 1) bs'

/-- `ccdBasicPinned(x, y, chain)`: the explicit stub (`// TODO Impl`). -/
def ccdBasicPinned (x y : ℝ) (bs : List Bone) : List Bone × Bool := (bs, false)

/-- `ccdBasic(x, y, chain, isPinned)`.  Returns the (possibly) mutated chain
together with the resolved flag. -/
def ccdBasic (x y : ℝ) (bs : List Bone) (isPinned : Bool) : List Bone × Bool :=
  if isPinned then ccdBasicPinned x y bs
  else ccdLoop (x, y) (ccdMaxCycles + 1) 0 bs

/-- `Chain.moveEndEffector(toX, toY, isPinned)` for a free-standing chain
(no `linkedFrom` / `linkedTo` and `REDRAW_ON_SOLVE = false`): delegate to the
assigned solver (the default `ccdBasic`). -/
def moveEndEffector (bs : List Bone) (toX toY : ℝ) (isPinned : Bool) : List Bone × Bool :=
  ccdBasic toX toY bs isPinned

/-! ## The analytic two-segment solver (`limbSolver` in `ccd-basic.ts`) -/

/-- `isClockwise(x0, y0, x1, y1, x2, y2)`: clockwise orientation test for
three points. -/
def isClockwise (px0 py0 px1 py1 px2 py2 : ℝ) : Prop :=
  (py2 - py0) * (px1 - px0) > (py1 - py0) * (px2 - px0)

/-- `getRotation(...)`: the tie-break helper choosing which joint-limit
boundary a clamped child bone snaps to. -/
def getRotation (xRoot yRoot p c lower upper bX bY tX tY : ℝ) : ℝ :=
  let parent := if p > 0 then p else 2 * π + p
  let child := if c > 0 then c else 2 * π + c
  let lowerA := parent + lower
  let lowerN := if lowerA ≥ 0 then lowerA else 2 * π + lowerA
  let upperA := parent + upper
  if isClockwise xRoot yRoot bX bY tX tY then
    let d := upperA - child
    let d' := if d > π then d - 2 * π else d
    if d' < 0 then upperA else c
  else
    let d := child - lowerN
    if d < 0 then lowerN else c

/-- The optional `params` object of `limbSolver` with its four per-field
overridable joint limits (`none` models an absent/NaN entry, which falls back
to the hard-coded default). -/
structure LimbParams where
  lowerLimit0 : Option ℝ
  upperLimit0 : Option ℝ
  lowerLimit1 : Option ℝ
  upperLimit1 : Option ℝ

/-- The empty params object. -/
def LimbParams.none' : LimbParams := ⟨none, none, none, none⟩

/-- Squared root-to-target distance `dSq` computed by `limbSolver`. -/
def limbDSq (x y : ℝ) (b1 : Bone) : ℝ :=
  (x - b1.x0) * (x - b1.x0) + (y - b1.y0) * (y - b1.y0)

/-- `_lMax = (l1 + l2)^2` computed by `limbSolver`. -/
def limbLMax (b1 b2 : Bone) : ℝ := (b1.length + b2.length) * (b1.length + b2.length)

/-- `c2 = (dX*dX + dY*dY - l1Sq - l2Sq) / (2*l1*l2)` computed by
`limbSolver` in the reachable case. -/
def limbC2 (x y : ℝ) (b1 b2 : Bone) : ℝ :=
  (limbDSq x y b1 - b1.length * b1.length - b2.length * b2.length) /
    (2 * b1.length * b2.length)

/-- The closed-form root angle
`theta1 = atan2(l1c2*dY - l2s2*dX, l2s2*dY + l1c2*dX)` of `limbSolver`. -/
def limbThetaCF (x y : ℝ) (b1 b2 : Bone) : ℝ :=
  let dX := x - b1.x0
  let dY := y - b1.y0
  let theta2 := Real.arccos (limbC2 x y b1 b2)
  let s2 := Real.sin theta2
  let l2s2 := b2.length * s2
  let l2c2 := b2.length * limbC2 x y b1 b2
  let l1c2 := b1.length + l2c2
  atan2 (l1c2 * dY - l2s2 * dX) (l2s2 * dY + l1c2 * dX)

/-- `limbSolver(x, y, chain, isPinned, params)` on a two-bone chain
`[b1, b2]` (the chain root is `b1`'s initial joint).  Returns the two updated
bones and the resolved flag
(`if (limit) return false; return dSq <= _lMax`). -/
def limbSolver (x y : ℝ) (b1 b2 : Bone) (params : LimbParams) : Bone × Bone × Prop :=
  let lower0 := params.lowerLimit0.getD (-(3 * π) / 5)
  let upper0 := params.upperLimit0.getD (π / 2)
  let lower1 := params.lowerLimit1.getD (-(π / 2))
  let upper1 := params.upperLimit1.getD (3 * π / 4)
  let xRoot := b1.x0
  let yRoot := b1.y0
  let l1 := b1.length
  let l2 := b2.length
  let lMax := limbLMax b1 b2
  let dX := x - xRoot
  let dY := y - yRoot
  let dSq := limbDSq x y b1
  let body : Bone × Bone × Prop :=
    if dSq > lMax then
      let theta1a := atan2 dY dX
      let limA : Prop := theta1a < lower0
      let theta1b := if limA then lower0 else theta1a
      let limB : Prop := theta1b > upper0
      let theta1 := if limB then upper0 else theta1b
      let lim : Prop := limA ∨ limB
      let b1' := b1.reorient 0 0 theta1 false
      let b2X := b1'.x1
      let b2Y := b1'.y1
      let b2' :=
        if lim then
          let pointTo := atan2 (y - b2Y) (x - b2X)
          let theta2 :=
            if |theta1 - pointTo| < 0.1 then theta1
            else getRotation xRoot yRoot theta1 pointTo lower1 upper1 b2X b2Y x y
          b2.reorient b2X b2Y theta2 true
        else b2.reorient b2X b2Y theta1 true
      (b1', b2', lim)
    else
      let c2 := limbC2 x y b1 b2
      if c2 < -1 ∨ c2 > 1 then
        let theta1a := atan2 dY dX
        let theta1 := min (max theta1a lower0) upper0
        let b1' := b1.reorient 0 0 theta1 false
        let b2X := b1'.x1
        let b2Y := b1'.y1
        let ang := min π upper1
        let b2' := b2.reorient b2X b2Y (theta1 + ang) true
        (b1', b2', False)
      else
        let theta2cf := Real.arccos c2
        let theta1a := limbThetaCF x y b1 b2
        let limA : Prop := theta1a < lower0
        let limB : Prop := ¬theta1a < lower0 ∧ theta1a > upper0
        let theta1 := if limA then lower0 else if theta1a > upper0 then upper0 else theta1a
        let lim : Prop := limA ∨ limB
        let b1' := b1.reorient 0 0 theta1 false
        let b2X := b1'.x1
        let b2Y := b1'.y1
        let b2' :=
          if lim then
            let pointTo := atan2 (y - b2Y) (x - b2X)
            let theta2 :=
              if |theta1 - pointTo| < 0.1 then theta1
              else getRotation xRoot yRoot theta1 pointTo lower1 upper1 b2X b2Y x y
            b2.reorient b2X b2Y theta2 true
          else
            let theta2 := getRotation xRoot yRoot theta1 (theta1 + theta2cf) lower1 upper1 b2X b2Y x y
            b2.reorient b2X b2Y theta2 true
        (b1', b2', lim)
  (body.1, body.2.1, if body.2.2 then False else dSq ≤ lMax)

/-! ## Claim C7: the pinned CCD path is a stub -/

/-- Claim C7: for every chain and every target, calling `ccdBasic` with
`isPinned = true` returns `false` and leaves every bone of the chain
unchanged (the returned chain is exactly the input chain). -/
theorem ccdBasic_pinned_stub (x y : ℝ) (bs : List Bone) :
    ccdBasic x y bs true = (bs, false) := by
  simp [ccdBasic, ccdBasicPinned]

/-! ## Claim C10: `Chain.pop` safety -/

/-- Claim C10: on a chain of size at least two, `pop` removes exactly the
last bone, decrements the size by one, and turns the new last bone into the
terminal bone (`IS_END = true`, `NEXT = null`); on a chain of size one, the
reassignment of the terminal reads a nonexistent element, so the update fails
(modelled by `none`) and no valid terminal remains. -/
theorem chain_pop_safety (bones : List PBone) :
    (2 ≤ bones.length →
      (popChain bones).isSome = true ∧
      ((popChain bones).getD []).length = bones.length - 1 ∧
      ((popChain bones).getD []).map PBone.pid = (bones.map PBone.pid).dropLast ∧
      (∀ b ∈ ((popChain bones).getD []).getLast?, b.isEnd = true ∧ b.hasNext = false)) ∧
    (bones.length = 1 → popChain bones = none) := by
  constructor
  · intro h2
    have hlen : bones.dropLast.length = bones.length - 1 := bones.length_dropLast
    have hne : bones.dropLast ≠ [] := by
      intro hnil
      rw [hnil] at hlen
      simp at hlen
      omega
    have hlast : bones.dropLast.getLast? = some (bones.dropLast.getLast hne) :=
      List.getLast?_eq_getLast _ hne
    have hpop : popChain bones =
        some (bones.dropLast.dropLast ++
          [{ bones.dropLast.getLast hne with isEnd := true, hasNext := false }]) := by
      simp only [popChain, hlast]
    refine ⟨by rw [hpop]; rfl, ?_, ?_, ?_⟩
    · rw [hpop]
      simp only [Option.getD_some, List.length_append, List.length_dropLast,
        List.length_cons, List.length_nil]
      omega
    · rw [hpop]
      simp only [Option.getD_some, List.map_append, List.map_cons, List.map_nil]
      have : ({ bones.dropLast.getLast hne with isEnd := true, hasNext := false} : PBone).pid =
          (bones.dropLast.getLast hne).pid := rfl
      rw [this]
      have hsplit := List.dropLast_append_getLast hne
      calc bones.dropLast.dropLast.map PBone.pid ++ [(bones.dropLast.getLast hne).pid]
          = (bones.dropLast.dropLast ++ [bones.dropLast.getLast hne]).map PBone.pid := by
            simp
        _ = (bones.dropLast).map PBone.pid := by rw [hsplit]
        _ = (bones.map PBone.pid).dropLast := by rw [List.map_dropLast]
    · rw [hpop]
      simp only [Option.getD_some, List.getLast?_concat, Option.mem_def,
        Option.some.injEq]
      rintro b rfl
      exact ⟨rfl, rfl⟩
  · intro h1
    have : bones.dropLast = [] := by
      have := bones.length_dropLast
      rw [h1] at this
      simpa using List.length_eq_zero.mp (by omega)
    unfold popChain
    rw [this]
    rfl

/-- Witness for C10 on a concrete two-bone chain. -/
theorem chain_pop_safety_witness :
    (2 ≤ ([⟨0, false, true⟩, ⟨1, true, false⟩] : List PBone).length) ∧
    ((popChain [⟨0, false, true⟩, ⟨1, true, false⟩]).isSome = true ∧
      ((popChain [⟨0, false, true⟩, ⟨1, true, false⟩]).getD []).length =
        ([⟨0, false, true⟩, ⟨1, true, false⟩] : List PBone).length - 1 ∧
      ((popChain [⟨0, false, true⟩, ⟨1, true, false⟩]).getD []).map PBone.pid =
        (([⟨0, false, true⟩, ⟨1, true, false⟩] : List PBone).map PBone.pid).dropLast ∧
      (∀ b ∈ ((popChain [⟨0, false, true⟩, ⟨1, true, false⟩]).getD []).getLast?,
        b.isEnd = true ∧ b.hasNext = false)) :=
  ⟨by decide, (chain_pop_safety [⟨0, false, true⟩, ⟨1, true, false⟩]).1 (by decide)⟩

/-! ## Claim C4: the joint-limit containment test -/

/-- Counterexample to claim C4 as stated: at `lower = 6`, `upper = 1`,
`candidate = 1/2` the code's test succeeds (`candidate + 2π ≥ lower` and
`candidate ≤ upper`) but the specification's formula demands additionally
`candidate + 2π ≤ 2π`, which fails; so the two disagree. -/
theorem isInLimit_spec_counterexample :
    ¬(Bone.isInLimit 6 1 (1 / 2) ↔ isInLimitSpec 6 1 (1 / 2)) := by
  have h3 := Real.pi_gt_three
  have hcode : Bone.isInLimit 6 1 (1 / 2) := by
    unfold Bone.isInLimit
    rw [if_pos (by norm_num), if_neg (by rintro ⟨h, -⟩; linarith)]
    constructor <;> nlinarith
  have hspec : ¬isInLimitSpec 6 1 (1 / 2) := by
    unfold isInLimitSpec
    rw [if_neg (by norm_num), if_neg (by intro h; simp only [ge_iff_le] at h; linarith)]
    rintro ⟨⟨-, h⟩, -⟩
    linarith
  tauto

/-- Claim C4, amended: the joint-limit tests of `Bone` and `Connector` are
identical, and for all angles the test returns true iff: when
`lower ≤ upper`, `candidate ∈ [lower, upper]`; when `lower > upper` and
`candidate ∈ [π, 2π]`, `candidate ∈ [lower, 2π + upper]`; otherwise
`candidate + 2π ≥ lower` and `candidate ≤ upper` (the specification's extra
cap `candidate + 2π ≤ 2π` does not exist in the code, and the first split
requires `candidate ≤ 2π` as well as `candidate ≥ π`). -/
theorem isInLimit_characterization (lower upper child : ℝ) :
    (Bone.isInLimit lower upper child ↔ Connector.isInLimit lower upper child) ∧
    (Bone.isInLimit lower upper child ↔
      (if lower ≤ upper then lower ≤ child ∧ child ≤ upper
       else if π ≤ child ∧ child ≤ 2 * π then lower ≤ child ∧ child ≤ 2 * π + upper
       else lower ≤ child + 2 * π ∧ child ≤ upper)) := by
  refine ⟨Iff.rfl, ?_⟩
  unfold Bone.isInLimit
  rcases le_or_lt lower upper with h | h
  · rw [if_neg (not_lt.mpr h), if_pos h]
  · rw [if_pos h, if_neg (not_le.mpr h)]

/-! ## Claim C8: the joint-limit example -/

/-- Claim C8: with limit offsets `lower = -3π/5`, `upper = π/2` and parent
orientation `0`, the absolute limits computed by the orientation setter are
`2π - 3π/5` and `π/2`, candidate `-1.8` normalizes to `2π - 1.8`, and the
containment test accepts candidates `0` and `2π - 1.8` but rejects `π`. -/
theorem jointLimit_example :
    Bone.limitLowerAbs 0 (-(3 * π / 5)) = 2 * π - 3 * π / 5 ∧
    Bone.limitUpperAbs 0 (π / 2) = π / 2 ∧
    normalizeAngle (-1.8) = 2 * π - 1.8 ∧
    Bone.isInLimit (2 * π - 3 * π / 5) (π / 2) (normalizeAngle 0) ∧
    Bone.isInLimit (2 * π - 3 * π / 5) (π / 2) (2 * π - 1.8) ∧
    ¬Bone.isInLimit (2 * π - 3 * π / 5) (π / 2) π := by
  have hpi := Real.pi_pos
  have h3 := Real.pi_gt_three
  refine ⟨?_, ?_, ?_, ?_, ?_, ?_⟩
  · unfold Bone.limitLowerAbs
    rw [if_neg (by intro hx; nlinarith)]
    ring
  · unfold Bone.limitUpperAbs
    rw [if_pos (by nlinarith)]
    ring
  · unfold normalizeAngle
    rw [if_neg (by norm_num)]
    ring
  · have h0 : normalizeAngle 0 = 0 := by unfold normalizeAngle; rw [if_pos le_rfl]
    rw [h0]
    unfold Bone.isInLimit
    rw [if_pos (by nlinarith), if_neg (by rintro ⟨hx, -⟩; nlinarith)]
    constructor <;> nlinarith
  · unfold Bone.isInLimit
    rw [if_pos (by nlinarith), if_pos (by constructor <;> nlinarith)]
    constructor <;> nlinarith
  · unfold Bone.isInLimit
    rw [if_pos (by nlinarith), if_pos (by constructor <;> nlinarith)]
    rintro ⟨hx, -⟩
    nlinarith

/-! ## Claim C6: range of the orientation getter -/

/-- Counterexample to claim C6 as stated: rotating a unit bone along the
positive x-axis by `7` radians leaves the raw angle at `7 ≥ 2π`, and the
orientation getter reports `7`, outside `[0, 2π)`. -/
theorem orientation_getter_counterexample :
    ¬(0 ≤ ((mkBone 0 0 1 0).rotate 7).orientation ∧
      ((mkBone 0 0 1 0).rotate 7).orientation < 2 * π) := by
  have h0 : (mkBone 0 0 1 0).angle = 0 := by
    have : (mkBone 0 0 1 0).angle = atan2 (0 - 0) (1 - 0) := rfl
    rw [this]
    norm_num
    exact atan2_zero_of_pos 1 (by norm_num)
  have h7 : ((mkBone 0 0 1 0).rotate 7).orientation = 7 := by
    have ha : ((mkBone 0 0 1 0).rotate 7).angle = (mkBone 0 0 1 0).angle + 7 := rfl
    unfold Bone.orientation normalizeAngle
    rw [ha, h0]
    norm_num
  rw [h7]
  rintro ⟨-, h⟩
  nlinarith [Real.pi_lt_d2]

/-- Claim C6, amended: the orientation getter reports a value in `[0, 2π)`
whenever the raw stored angle lies in `(-2π, 2π)`; this holds unconditionally
after `setTerminal` (whose `atan2` lands in `(-π, π]`), but `rotate` /
`moveAndRotate` / orientation assignment accumulate the raw angle without
normalisation and may leave `(-2π, 2π)`, after which the getter is not
normalized. -/
theorem orientation_getter_normalized_in_range (b : Bone) (x y : ℝ)
    (h1 : -(2 * π) < b.angle) (h2 : b.angle < 2 * π) :
    (0 ≤ b.orientation ∧ b.orientation < 2 * π) ∧
    (0 ≤ (b.setTerminal x y).orientation ∧ (b.setTerminal x y).orientation < 2 * π) := by
  have hpi := Real.pi_pos
  constructor
  · unfold Bone.orientation normalizeAngle
    split_ifs with h
    · exact ⟨h, h2⟩
    · push_neg at h
      constructor <;> linarith
  · have hang : (b.setTerminal x y).angle = atan2 (y - b.y0) (x - b.x0) := rfl
    have hle := atan2_le_pi (y - b.y0) (x - b.x0)
    have hgt := neg_pi_lt_atan2 (y - b.y0) (x - b.x0)
    unfold Bone.orientation normalizeAngle
    rw [hang]
    split_ifs with h
    · constructor <;> linarith
    · push_neg at h
      constructor <;> linarith

/-- Witness for the amended C6 at a concrete bone with raw angle `0`. -/
theorem orientation_getter_normalized_in_range_witness :
    (-(2 * π) < (mkBone 0 0 1 0).angle ∧ (mkBone 0 0 1 0).angle < 2 * π) ∧
    (0 ≤ (mkBone 0 0 1 0).orientation ∧ (mkBone 0 0 1 0).orientation < 2 * π) := by
  have h0 : (mkBone 0 0 1 0).angle = 0 := by
    have : (mkBone 0 0 1 0).angle = atan2 (0 - 0) (1 - 0) := rfl
    rw [this]
    norm_num
    exact atan2_zero_of_pos 1 (by norm_num)
  have h1 : -(2 * π) < (mkBone 0 0 1 0).angle := by
    rw [h0]
    nlinarith [Real.pi_pos]
  have h2 : (mkBone 0 0 1 0).angle < 2 * π := by
    rw [h0]
    nlinarith [Real.pi_pos]
  exact ⟨⟨h1, h2⟩, (orientation_getter_normalized_in_range (mkBone 0 0 1 0) 0 0 h1 h2).1⟩

/-! ## Claim C3: length preservation -/

/-- The cached length agrees with the norm of the cached joint delta.  This
holds for every bone reachable through the public mutators: `init` zeroes
both, `setInitial`/`setTerminal` recompute both together, and no other
operation breaks the agreement. -/
def LengthSync (b : Bone) : Prop :=
  b.length = Real.sqrt (b.deltaX * b.deltaX + b.deltaY * b.deltaY)

/-- Claim C3: `move`/`moveInitial`, `rotate`, `moveAndRotate`, the
`orientation` setter and `reorient` leave the bone's length unchanged —
exactly, in real arithmetic (hence within any floating tolerance). -/
theorem bone_ops_length_invariant (b : Bone) (h : LengthSync b)
    (toX toY dA rad ang : ℝ) (p : Option ℝ) (mv : Bool) :
    (b.moveInitial toX toY).length = b.length ∧
    (b.rotate dA).length = b.length ∧
    (b.moveAndRotate toX toY dA).length = b.length ∧
    (b.setOrientation p rad).length = b.length ∧
    (b.reorient toX toY ang mv).length = b.length := by
  refine ⟨rfl, rfl, rfl, ?_, ?_⟩
  · have key : ∀ D : ℝ,
        Real.sqrt ((b.deltaX * Real.cos D - b.deltaY * Real.sin D) *
            (b.deltaX * Real.cos D - b.deltaY * Real.sin D) +
          (b.deltaX * Real.sin D + b.deltaY * Real.cos D) *
            (b.deltaX * Real.sin D + b.deltaY * Real.cos D)) = b.length := by
      intro D
      rw [h]
      congr 1
      have h1 := Real.sin_sq_add_cos_sq D
      linear_combination (b.deltaX * b.deltaX + b.deltaY * b.deltaY) * h1
    unfold Bone.setOrientation
    simp only []
    split_ifs <;> first | exact key _ | rfl
  · cases mv <;> rfl

/-- Witness for C3 at a concrete 3-4-5 bone. -/
theorem bone_ops_length_invariant_witness :
    LengthSync (mkBone 0 0 3 4) ∧
    ((mkBone 0 0 3 4).moveInitial 1 2).length = (mkBone 0 0 3 4).length ∧
    ((mkBone 0 0 3 4).rotate 1).length = (mkBone 0 0 3 4).length ∧
    ((mkBone 0 0 3 4).moveAndRotate 1 2 1).length = (mkBone 0 0 3 4).length ∧
    ((mkBone 0 0 3 4).setOrientation none 1).length = (mkBone 0 0 3 4).length ∧
    ((mkBone 0 0 3 4).reorient 1 2 1 true).length = (mkBone 0 0 3 4).length :=
  ⟨rfl, bone_ops_length_invariant (mkBone 0 0 3 4) rfl 1 2 1 1 1 none true⟩

/-! ## Claim C5: the limb solver's resolved flag -/

theorem sqrt_val (a r : ℝ) (hr : 0 ≤ r) (h : r * r = a) : Real.sqrt a = r := by
  rw [← h]
  exact Real.sqrt_mul_self hr

/-- Claim C5, amended: `limbSolver` returns true iff `d² ≤ (l1+l2)²` and the
`limit` flag is not set; the flag is set only by the clamp of the closed-form
`theta1` in the reachable branch (the clamp in the unreachable branch cannot
coincide with `d² ≤ (l1+l2)²`, and the clamp in the numeric-infeasibility
branch `cos θ2 ∉ [-1, 1]` uses `Math.max`/`Math.min` without recording a
limit, so the solver still reports true there). -/
theorem limbSolver_resolved_characterization (x y : ℝ) (b1 b2 : Bone)
    (params : LimbParams) :
    ((limbSolver x y b1 b2 params).2.2 ↔
      (limbDSq x y b1 ≤ limbLMax b1 b2 ∧
        (limbC2 x y b1 b2 < -1 ∨ limbC2 x y b1 b2 > 1 ∨
          (params.lowerLimit0.getD (-(3 * π) / 5) ≤ limbThetaCF x y b1 b2 ∧
            limbThetaCF x y b1 b2 ≤ params.upperLimit0.getD (π / 2))))) := by
  unfold limbSolver
  simp only []
  by_cases hd : limbDSq x y b1 > limbLMax b1 b2
  · rw [if_pos hd]
    simp only []
    have hR : ¬limbDSq x y b1 ≤ limbLMax b1 b2 := not_le.mpr hd
    split_ifs <;> tauto
  · rw [if_neg hd]
    have hdle : limbDSq x y b1 ≤ limbLMax b1 b2 := not_lt.mp hd
    by_cases hc : limbC2 x y b1 b2 < -1 ∨ limbC2 x y b1 b2 > 1
    · rw [if_pos hc]
      simp only []
      split_ifs <;> tauto
    · rw [if_neg hc]
      simp only []
      have hc1 : ¬limbC2 x y b1 b2 < -1 := fun h => hc (Or.inl h)
      have hc2 : ¬limbC2 x y b1 b2 > 1 := fun h => hc (Or.inr h)
      have hiff : (limbThetaCF x y b1 b2 < params.lowerLimit0.getD (-(3 * π) / 5) ∨
          (¬limbThetaCF x y b1 b2 < params.lowerLimit0.getD (-(3 * π) / 5) ∧
            limbThetaCF x y b1 b2 > params.upperLimit0.getD (π / 2))) ↔
          ¬(params.lowerLimit0.getD (-(3 * π) / 5) ≤ limbThetaCF x y b1 b2 ∧
            limbThetaCF x y b1 b2 ≤ params.upperLimit0.getD (π / 2)) := by
        constructor
        · rintro (h | ⟨-, h2⟩) ⟨hl, hu⟩
          · exact absurd h (not_lt.mpr hl)
          · exact absurd h2 (not_lt.mpr hu)
        · intro h
          rcases lt_or_le (limbThetaCF x y b1 b2)
              (params.lowerLimit0.getD (-(3 * π) / 5)) with h1 | h1
          · exact Or.inl h1
          · refine Or.inr ⟨not_lt.mpr h1, ?_⟩
            rcases lt_or_le (params.upperLimit0.getD (π / 2))
                (limbThetaCF x y b1 b2) with h2 | h2
            · exact h2
            · exact absurd ⟨h1, h2⟩ h
      split_ifs with hlim
      · have hnot := hiff.mp hlim
        simp only [false_iff]
        rintro ⟨-, h | h | h⟩
        · exact hc1 h
        · exact hc2 h
        · exact hnot h
      · have hin : params.lowerLimit0.getD (-(3 * π) / 5) ≤ limbThetaCF x y b1 b2 ∧
            limbThetaCF x y b1 b2 ≤ params.upperLimit0.getD (π / 2) := by
          by_contra hcon
          exact hlim (hiff.mpr hcon)
        exact ⟨fun h => ⟨h, Or.inr (Or.inr hin)⟩, fun _ => hdle⟩

theorem mkBone_x0 (ix iy tx ty : ℝ) : (mkBone ix iy tx ty).x0 = ix := rfl

theorem mkBone_y0 (ix iy tx ty : ℝ) : (mkBone ix iy tx ty).y0 = iy := rfl

theorem mkBone_x1 (ix iy tx ty : ℝ) : (mkBone ix iy tx ty).x1 = tx := rfl

theorem mkBone_y1 (ix iy tx ty : ℝ) : (mkBone ix iy tx ty).y1 = ty := rfl

theorem mkBone_deltaX (ix iy tx ty : ℝ) : (mkBone ix iy tx ty).deltaX = tx - ix := rfl

theorem mkBone_deltaY (ix iy tx ty : ℝ) : (mkBone ix iy tx ty).deltaY = ty - iy := rfl

theorem mkBone_angle (ix iy tx ty : ℝ) :
    (mkBone ix iy tx ty).angle = atan2 (ty - iy) (tx - ix) := rfl

theorem mkBone_length (ix iy tx ty : ℝ) :
    (mkBone ix iy tx ty).length =
      Real.sqrt ((tx - ix) * (tx - ix) + (ty - iy) * (ty - iy)) := rfl

theorem mkBone_unconstrained (ix iy tx ty : ℝ) :
    (mkBone ix iy tx ty).unconstrained = true := rfl

/-- Counterexample to claim C5 as stated: for the two-bone chain with
`l1 = 5`, `l2 = 1`, root at the origin and target `(-1, 0)` (default joint
limits), the raw root angle `atan2(0, -1) = π` exceeds `upperLimit0 = π/2`,
so the clamp triggers; yet the solver takes the numeric-infeasibility branch
(`cos θ2 = -2.5 < -1`), never records the clamp, and returns `d² ≤ (l1+l2)²`,
i.e. true — contradicting "returns false if the clamp triggered". -/
theorem limbSolver_clamp_counterexample :
    (limbSolver (-1) 0 (mkBone 0 0 5 0) (mkBone 5 0 6 0) LimbParams.none').2.2 ∧
    LimbParams.none'.upperLimit0.getD (π / 2) <
      atan2 (0 - (mkBone 0 0 5 0).y0) (-1 - (mkBone 0 0 5 0).x0) := by
  have hl1 : (mkBone 0 0 5 0).length = 5 := by
    rw [mkBone_length]
    rw [show ((5:ℝ) - 0) * ((5:ℝ) - 0) + ((0:ℝ) - 0) * ((0:ℝ) - 0) = 25 by norm_num]
    exact sqrt_val 25 5 (by norm_num) (by norm_num)
  have hl2 : (mkBone 5 0 6 0).length = 1 := by
    rw [mkBone_length]
    rw [show ((6:ℝ) - 5) * ((6:ℝ) - 5) + ((0:ℝ) - 0) * ((0:ℝ) - 0) = 1 by norm_num]
    exact sqrt_val 1 1 (by norm_num) (by norm_num)
  have hdSq : limbDSq (-1) 0 (mkBone 0 0 5 0) = 1 := by
    rw [limbDSq, mkBone_x0, mkBone_y0]
    norm_num
  have hlMax : limbLMax (mkBone 0 0 5 0) (mkBone 5 0 6 0) = 36 := by
    rw [limbLMax, hl1, hl2]
    norm_num
  have hc2 : limbC2 (-1) 0 (mkBone 0 0 5 0) (mkBone 5 0 6 0) = -5 / 2 := by
    rw [limbC2, hdSq, hl1, hl2]
    norm_num
  constructor
  · unfold limbSolver
    simp only []
    have h1 : ¬(limbDSq (-1) 0 (mkBone 0 0 5 0) >
        limbLMax (mkBone 0 0 5 0) (mkBone 5 0 6 0)) := by
      rw [hdSq, hlMax]
      norm_num
    have h2 : limbC2 (-1) 0 (mkBone 0 0 5 0) (mkBone 5 0 6 0) < -1 ∨
        limbC2 (-1) 0 (mkBone 0 0 5 0) (mkBone 5 0 6 0) > 1 :=
      Or.inl (by rw [hc2]; norm_num)
    simp only [if_neg h1, if_pos h2, if_neg not_false]
    rw [hdSq, hlMax]
    norm_num
  · have hv : LimbParams.none'.upperLimit0.getD (π / 2) = π / 2 := rfl
    have harg : atan2 (0 - (mkBone 0 0 5 0).y0) (-1 - (mkBone 0 0 5 0).x0) = π := by
      rw [mkBone_x0, mkBone_y0]
      rw [show (0:ℝ) - 0 = 0 by norm_num, show (-1:ℝ) - 0 = -1 by norm_num]
      have hm : ((⟨-1, 0⟩ : ℂ)) = (-1 : ℂ) := by
        apply Complex.ext <;> simp
      rw [atan2, hm, Complex.arg_neg_one]
    rw [hv, harg]
    linarith [Real.pi_pos]

/-! ## Claim C2: chain continuity -/

/-- The adjacency condition of the chain invariant: the successor's initial
joint coincides with the predecessor's terminal joint (exactly, hence within
any floating tolerance). -/
def ContRel (a b : Bone) : Prop := b.x0 = a.x1 ∧ b.y0 = a.y1

/-- The chain invariant: `terminal(i) = initial(i+1)` for every consecutive
pair of bones. -/
def ChainContinuous (bs : List Bone) : Prop := List.Chain' ContRel bs

theorem setInitial_x0 (b : Bone) (cX cY : ℝ) (u : Bool) :
    (b.setInitial cX cY u).x0 = cX := by cases u <;> rfl

theorem setInitial_y0 (b : Bone) (cX cY : ℝ) (u : Bool) :
    (b.setInitial cX cY u).y0 = cY := by cases u <;> rfl

theorem setOrientation_x0 (b : Bone) (p : Option ℝ) (rad : ℝ) :
    (b.setOrientation p rad).x0 = b.x0 := by
  unfold Bone.setOrientation
  simp only []
  split_ifs <;> rfl

theorem setOrientation_y0 (b : Bone) (p : Option ℝ) (rad : ℝ) :
    (b.setOrientation p rad).y0 = b.y0 := by
  unfold Bone.setOrientation
  simp only []
  split_ifs <;> rfl

theorem propagateMove_ok (bs : List Bone) :
    ∀ p q : ℝ, ChainContinuous (propagateMove bs p q) ∧
      ∀ b ∈ (propagateMove bs p q).head?, b.x0 = p ∧ b.y0 = q := by
  induction bs with
  | nil => exact fun p q => ⟨List.chain'_nil, by simp [propagateMove]⟩
  | cons b rest ih =>
    intro p q
    constructor
    · refine List.chain'_cons'.mpr ⟨?_, (ih _ _).1⟩
      intro c hc
      exact (ih _ _).2 c hc
    · intro c hc
      simp only [propagateMove, List.head?_cons, Option.mem_def, Option.some.injEq] at hc
      subst hc
      exact ⟨rfl, rfl⟩

theorem propagateMAR_ok (bs : List Bone) :
    ∀ p q dA c1 s1 : ℝ, ChainContinuous (propagateMAR bs p q dA c1 s1) ∧
      ∀ b ∈ (propagateMAR bs p q dA c1 s1).head?, b.x0 = p ∧ b.y0 = q := by
  induction bs with
  | nil => exact fun p q dA c1 s1 => ⟨List.chain'_nil, by simp [propagateMAR]⟩
  | cons b rest ih =>
    intro p q dA c1 s1
    constructor
    · refine List.chain'_cons'.mpr ⟨?_, (ih _ _ _ _ _).1⟩
      intro c hc
      exact (ih _ _ _ _ _).2 c hc
    · intro c hc
      simp only [propagateMAR, List.head?_cons, Option.mem_def, Option.some.injEq] at hc
      subst hc
      exact ⟨rfl, rfl⟩

theorem chainMove_continuous (bs : List Bone) (toX toY : ℝ) :
    ChainContinuous (chainMove bs toX toY) := (propagateMove_ok bs toX toY).1

theorem chainRotate_continuous (bs : List Bone) (dA : ℝ) :
    ChainContinuous (chainRotate bs dA) := by
  cases bs with
  | nil => exact List.chain'_nil
  | cons b rest =>
    refine List.chain'_cons'.mpr ⟨?_, (propagateMAR_ok rest _ _ _ _ _).1⟩
    intro c hc
    exact (propagateMAR_ok rest _ _ _ _ _).2 c hc

theorem chainMoveAndRotate_continuous (bs : List Bone) (toX toY dA : ℝ) :
    ChainContinuous (chainMoveAndRotate bs toX toY dA) := (propagateMAR_ok bs _ _ _ _ _).1

theorem targetSteps_length (bs : List Bone) :
    ∀ t : ℝ × ℝ, (targetSteps bs t).length = bs.length := by
  induction bs with
  | nil => intro t; rfl
  | cons b rest ih =>
    intro t
    simp only [targetSteps, List.length_cons, ih]

theorem ccdTargets_length (bs : List Bone) (t : ℝ × ℝ) :
    (ccdTargets bs t).1.length = bs.length := by
  unfold ccdTargets
  rcases h : (targetSteps bs.reverse t).reverse with _ | ⟨c0, cs⟩
  · have := congrArg List.length h
    simp [targetSteps_length] at this
    simp [this]
  · have := congrArg List.length h
    simp only [List.length_reverse, targetSteps_length, List.length_cons] at this
    simp only [List.length_append, List.length_cons, List.length_nil]
    omega

theorem positionRest_ok (rest : List Bone) :
    ∀ (recs : List (ℝ × ℝ)) (prev : Bone) (t delta : ℝ × ℝ),
      rest.length ≤ recs.length + 1 →
      ChainContinuous (positionRest t delta prev rest recs) ∧
        ∀ b ∈ (positionRest t delta prev rest recs).head?,
          b.x0 = prev.x1 ∧ b.y0 = prev.y1 := by
  induction rest with
  | nil =>
    intro recs prev t delta _
    exact ⟨List.chain'_nil, by simp [positionRest]⟩
  | cons b rest' ih =>
    intro recs prev t delta hlen
    cases rest' with
    | nil =>
      refine ⟨List.chain'_singleton _, ?_⟩
      intro c hc
      simp only [positionRest, List.head?_cons, Option.mem_def, Option.some.injEq] at hc
      subst hc
      rw [setOrientation_x0, setOrientation_y0, setInitial_x0, setInitial_y0]
      exact ⟨rfl, rfl⟩
    | cons b2 rest'' =>
      cases recs with
      | nil => simp at hlen
      | cons r rs =>
        have hlen' : (b2 :: rest'').length ≤ rs.length + 1 := by
          simp only [List.length_cons] at hlen ⊢
          omega
        constructor
        · refine List.chain'_cons'.mpr ⟨?_, (ih rs _ t delta hlen').1⟩
          intro c hc
          exact (ih rs _ t delta hlen').2 c hc
        · intro c hc
          simp only [positionRest, List.head?_cons, Option.mem_def, Option.some.injEq] at hc
          subst hc
          exact ⟨setInitial_x0 .., setInitial_y0 ..⟩

theorem ccdCycle_continuous (bs : List Bone) (t : ℝ × ℝ) :
    ChainContinuous (ccdCycle bs t) := by
  cases bs with
  | nil => exact List.chain'_nil
  | cons b0 rest =>
    have hlen := ccdTargets_length (b0 :: rest) t
    unfold ccdCycle
    rcases hrc : (ccdTargets (b0 :: rest) t).1 with _ | ⟨r0, rrest⟩
    · rw [hrc] at hlen
      simp at hlen
    · rw [hrc] at hlen
      simp only [List.length_cons] at hlen
      simp only [hrc]
      have hr : rest.length ≤ rrest.length + 1 := by omega
      refine List.chain'_cons'.mpr ⟨?_, (positionRest_ok rest rrest _ t _ hr).1⟩
      intro c hc
      exact (positionRest_ok rest rrest _ t _ hr).2 c hc

theorem ccdLoop_continuous (t : ℝ × ℝ) :
    ∀ (fuel cycles : Nat) (bs : List Bone), ChainContinuous bs →
      ChainContinuous (ccdLoop t fuel cycles bs).1 := by
  intro fuel
  induction fuel with
  | zero => exact fun cycles bs h => h
  | succ n ih =>
    intro cycles bs h
    unfold ccdLoop
    simp only []
    split_ifs
    · exact ccdCycle_continuous bs t
    · exact ih _ _ (ccdCycle_continuous bs t)

theorem moveEndEffector_continuous (bs : List Bone) (toX toY : ℝ) (isPinned : Bool)
    (h : ChainContinuous bs) :
    ChainContinuous (moveEndEffector bs toX toY isPinned).1 := by
  unfold moveEndEffector ccdBasic
  cases isPinned with
  | true => exact h
  | false => exact ccdLoop_continuous (toX, toY) _ 0 bs h

/-- The chain-level operations of the claim: `Chain.move`, `Chain.rotate`,
`Chain.moveAndRotate` and `Chain.moveEndEffector` (with its default iterative
solver), in either pinned or free mode. -/
inductive ChainOp where
  | move (toX toY : ℝ)
  | rotate (dA : ℝ)
  | moveAndRotate (toX toY dA : ℝ)
  | moveEffector (toX toY : ℝ) (isPinned : Bool)

/-- Apply one chain operation to the chain state. -/
def applyOp : ChainOp → List Bone → List Bone
  | .move x y, bs => chainMove bs x y
  | .rotate dA, bs => chainRotate bs dA
  | .moveAndRotate x y dA, bs => chainMoveAndRotate bs x y dA
  | .moveEffector x y p, bs => (moveEndEffector bs x y p).1

/-- Apply a sequence of chain operations, first element first. -/
def applyOps (ops : List ChainOp) (bs : List Bone) : List Bone :=
  ops.foldl (fun s op => applyOp op s) bs

theorem applyOp_continuous (op : ChainOp) (bs : List Bone) (h : ChainContinuous bs) :
    ChainContinuous (applyOp op bs) := by
  cases op with
  | move x y => exact chainMove_continuous bs x y
  | rotate dA => exact chainRotate_continuous bs dA
  | moveAndRotate x y dA => exact chainMoveAndRotate_continuous bs x y dA
  | moveEffector x y p => exact moveEndEffector_continuous bs x y p h

/-- Claim C2: starting from a chain satisfying the continuity invariant,
every sequence of `move`, `rotate`, `moveAndRotate` and
`moveEndEffector`/IK-solver invocations (including solves that do not resolve
and pinned stub calls) keeps `terminal(i) = initial(i+1)` — exactly, hence
within the stated `1e-9` tolerance. -/
theorem chain_continuity_invariant (bs : List Bone) (ops : List ChainOp)
    (h : ChainContinuous bs) : ChainContinuous (applyOps ops bs) := by
  induction ops generalizing bs with
  | nil => exact h
  | cons op rest ih => exact ih _ (applyOp_continuous op bs h)

/-- Witness for C2 on a concrete two-bone chain and a mixed operation
sequence. -/
theorem chain_continuity_invariant_witness :
    ChainContinuous [mkBone 0 0 3 4, mkBone 3 4 6 8] ∧
    ChainContinuous (applyOps
      [ChainOp.move 1 2, ChainOp.rotate 1, ChainOp.moveEffector 5 5 false]
      [mkBone 0 0 3 4, mkBone 3 4 6 8]) := by
  have hc : ChainContinuous [mkBone 0 0 3 4, mkBone 3 4 6 8] := by
    unfold ChainContinuous
    exact List.chain'_cons.mpr ⟨⟨rfl, rfl⟩, List.chain'_singleton _⟩
  exact ⟨hc, chain_continuity_invariant _ _ hc⟩

/-! ## Claim C1: result flag on cycle-budget exhaustion -/

theorem setTerminal_zero_fix :
    ((mkBone 0 0 10 0).setTerminal 0 0).setTerminal 0 0 = (mkBone 0 0 10 0).setTerminal 0 0 := rfl

/-- Claim C1 (code bug): on the one-bone chain `(0,0)-(10,0)` with the
unreachable target `(100,0)`, every position phase ends with squared error
`10000 > stop = 4` and the cycle budget is exhausted, yet `ccdBasic` returns
`true`: the convergence check merges `error <= stop` with
`cycles >= maxCycles` into a single `return true`, so the
"as close as we can get ... return false" path is dead code. -/
theorem ccdBasic_exhausted_returns_true :
    (ccdBasic 100 0 [mkBone 0 0 10 0] false).2 = true ∧
    ccdStop <
      (100 - (chainTerminal (ccdBasic 100 0 [mkBone 0 0 10 0] false).1).1) ^ 2 +
      (0 - (chainTerminal (ccdBasic 100 0 [mkBone 0 0 10 0] false).1).2) ^ 2 := by
  have hlen : (mkBone 0 0 10 0).length = 10 := by
    rw [mkBone_length]
    rw [show ((10:ℝ) - 0) * ((10:ℝ) - 0) + ((0:ℝ) - 0) * ((0:ℝ) - 0) = 100 by norm_num]
    exact sqrt_val 100 10 (by norm_num) (by norm_num)
  have hstep : targetSteps [mkBone 0 0 10 0] (100, 0) = [(90, 0)] := by
    unfold targetSteps
    rw [mkBone_x0, mkBone_y0, hlen]
    rw [show (100:ℝ) - 0 = 100 by norm_num, show (0:ℝ) - 0 = 0 by norm_num]
    rw [atan2_zero_of_pos 100 (by norm_num)]
    norm_num [Real.cos_zero, Real.sin_zero]
    rfl
  have hcyc : ccdCycle [mkBone 0 0 10 0] (100, 0) = [(mkBone 0 0 10 0).setTerminal 0 0] := by
    have htg : ccdTargets [mkBone 0 0 10 0] (100, 0) = ([(90, 0)], (90, 0)) := by
      unfold ccdTargets
      rw [show ([mkBone 0 0 10 0] : List Bone).reverse = [mkBone 0 0 10 0] from rfl, hstep]
      rfl
    unfold ccdCycle
    simp only [htg]
    rw [mkBone_x0, mkBone_y0]
    norm_num [positionRest]
  -- the collapsed bone after the first position phase
  have hlen' : ((mkBone 0 0 10 0).setTerminal 0 0).length = 0 := by
    have : ((mkBone 0 0 10 0).setTerminal 0 0).length =
        Real.sqrt (((0:ℝ) - 0) * ((0:ℝ) - 0) + ((0:ℝ) - 0) * ((0:ℝ) - 0)) := rfl
    rw [this]
    rw [show ((0:ℝ) - 0) * ((0:ℝ) - 0) + ((0:ℝ) - 0) * ((0:ℝ) - 0) = 0 by norm_num]
    exact Real.sqrt_zero
  have hstep' : targetSteps [(mkBone 0 0 10 0).setTerminal 0 0] (100, 0) = [(100, 0)] := by
    unfold targetSteps
    rw [show ((mkBone 0 0 10 0).setTerminal 0 0).x0 = 0 from rfl,
      show ((mkBone 0 0 10 0).setTerminal 0 0).y0 = 0 from rfl, hlen']
    rw [show (100:ℝ) - 0 = 100 by norm_num, show (0:ℝ) - 0 = 0 by norm_num]
    rw [atan2_zero_of_pos 100 (by norm_num)]
    norm_num [Real.cos_zero, Real.sin_zero]
    rfl
  have hcyc' : ccdCycle [(mkBone 0 0 10 0).setTerminal 0 0] (100, 0) =
      [(mkBone 0 0 10 0).setTerminal 0 0] := by
    have htg : ccdTargets [(mkBone 0 0 10 0).setTerminal 0 0] (100, 0) =
        ([(100, 0)], (100, 0)) := by
      unfold ccdTargets
      rw [show ([(mkBone 0 0 10 0).setTerminal 0 0] : List Bone).reverse =
        [(mkBone 0 0 10 0).setTerminal 0 0] from rfl, hstep']
      rfl
    unfold ccdCycle
    simp only [htg]
    rw [show ((mkBone 0 0 10 0).setTerminal 0 0).x0 = 0 from rfl,
      show ((mkBone 0 0 10 0).setTerminal 0 0).y0 = 0 from rfl]
    norm_num [positionRest, setTerminal_zero_fix]
  have hterm : chainTerminal [(mkBone 0 0 10 0).setTerminal 0 0] = (0, 0) := rfl
  have hcond : ∀ cycles : ℕ, cycles < 3 →
      ¬((100 - (chainTerminal [(mkBone 0 0 10 0).setTerminal 0 0]).1) ^ 2 +
          (0 - (chainTerminal [(mkBone 0 0 10 0).setTerminal 0 0]).2) ^ 2 ≤ ccdStop ∨
        cycles ≥ ccdMaxCycles) := by
    intro cycles hc
    rw [hterm]
    rintro (h | h)
    · norm_num [ccdStop] at h
    · exact absurd h (by simp [ccdMaxCycles]; omega)
  have hrun : ccdBasic 100 0 [mkBone 0 0 10 0] false =
      ([(mkBone 0 0 10 0).setTerminal 0 0], true) := by
    show ccdLoop (100, 0) (ccdMaxCycles + 1) 0 [mkBone 0 0 10 0] =
      ([(mkBone 0 0 10 0).setTerminal 0 0], true)
    rw [show ccdMaxCycles + 1 = 4 from rfl]
    unfold ccdLoop
    simp only [hcyc]
    rw [if_neg (hcond 0 (by norm_num))]
    unfold ccdLoop
    simp only [hcyc']
    rw [if_neg (hcond 1 (by norm_num))]
    unfold ccdLoop
    simp only [hcyc']
    rw [if_neg (hcond 2 (by norm_num))]
    unfold ccdLoop
    simp only [hcyc']
    rw [if_pos (Or.inr (show (3:ℕ) ≥ ccdMaxCycles from le_rfl))]
  rw [hrun]
  refine ⟨rfl, ?_⟩
  simp only [hterm]
  norm_num [ccdStop]

/-! ## Trigonometric characterization of the orientation setter -/

theorem cos_deltaAdjust (aa oo : ℝ) :
    Real.cos (Bone.deltaAdjust aa oo) = Real.cos (aa - oo) := by
  unfold Bone.deltaAdjust
  simp only []
  split_ifs with h1 h2
  · exact Real.cos_add_two_pi _
  · exact Real.cos_sub_two_pi _
  · rfl

theorem sin_deltaAdjust (aa oo : ℝ) :
    Real.sin (Bone.deltaAdjust aa oo) = Real.sin (aa - oo) := by
  unfold Bone.deltaAdjust
  simp only []
  split_ifs with h1 h2
  · exact Real.sin_add_two_pi _
  · exact Real.sin_sub_two_pi _
  · rfl

theorem cos_normalizeAngle_sub (aa oo : ℝ) :
    Real.cos (normalizeAngle aa - normalizeAngle oo) = Real.cos (aa - oo) := by
  unfold normalizeAngle
  split_ifs with h1 h2 h2
  · rfl
  · rw [show aa - (2 * π + oo) = aa - oo - 2 * π by ring]
    exact Real.cos_sub_two_pi _
  · rw [show 2 * π + aa - oo = aa - oo + 2 * π by ring]
    exact Real.cos_add_two_pi _
  · rw [show 2 * π + aa - (2 * π + oo) = aa - oo by ring]

theorem sin_normalizeAngle_sub (aa oo : ℝ) :
    Real.sin (normalizeAngle aa - normalizeAngle oo) = Real.sin (aa - oo) := by
  unfold normalizeAngle
  split_ifs with h1 h2 h2
  · rfl
  · rw [show aa - (2 * π + oo) = aa - oo - 2 * π by ring]
    exact Real.sin_sub_two_pi _
  · rw [show 2 * π + aa - oo = aa - oo + 2 * π by ring]
    exact Real.sin_add_two_pi _
  · rw [show 2 * π + aa - (2 * π + oo) = aa - oo by ring]

theorem cos_setter_delta (rad ang : ℝ) :
    Real.cos (Bone.deltaAdjust (normalizeAngle rad) (normalizeAngle ang)) =
      Real.cos (rad - ang) := by
  rw [cos_deltaAdjust, cos_normalizeAngle_sub]

theorem sin_setter_delta (rad ang : ℝ) :
    Real.sin (Bone.deltaAdjust (normalizeAngle rad) (normalizeAngle ang)) =
      Real.sin (rad - ang) := by
  rw [sin_deltaAdjust, sin_normalizeAngle_sub]

/-- The orientation setter on an unconstrained bone always accepts, and the
rotation it applies to the cached delta is by `rad - angle` (the internal
`±2π` adjustments do not affect the pose). -/
theorem setOrientation_unconstrained (b : Bone) (p : Option ℝ) (rad : ℝ)
    (hu : b.unconstrained = true) :
    b.setOrientation p rad =
      { b with
        angle := normalizeAngle rad
        x1 := b.deltaX * Real.cos (rad - b.angle) - b.deltaY * Real.sin (rad - b.angle) + b.x0
        y1 := b.deltaX * Real.sin (rad - b.angle) + b.deltaY * Real.cos (rad - b.angle) + b.y0
        deltaX := b.deltaX * Real.cos (rad - b.angle) - b.deltaY * Real.sin (rad - b.angle)
        deltaY := b.deltaX * Real.sin (rad - b.angle) + b.deltaY * Real.cos (rad - b.angle)
        length := Real.sqrt
          ((b.deltaX * Real.cos (rad - b.angle) - b.deltaY * Real.sin (rad - b.angle)) *
            (b.deltaX * Real.cos (rad - b.angle) - b.deltaY * Real.sin (rad - b.angle)) +
          (b.deltaX * Real.sin (rad - b.angle) + b.deltaY * Real.cos (rad - b.angle)) *
            (b.deltaX * Real.sin (rad - b.angle) + b.deltaY * Real.cos (rad - b.angle))) } := by
  unfold Bone.setOrientation
  simp only []
  rw [if_pos (Or.inl hu)]
  rw [cos_setter_delta, sin_setter_delta]

/-- The orientation setter on an unconstrained, trig-synced bone
(`delta = L·(cos angle, sin angle)` with `L ≥ 0`): the bone now points from
its unchanged initial joint in direction `rad` with unchanged length `L`. -/
theorem setOrientation_synced (b : Bone) (p : Option ℝ) (rad L : ℝ)
    (hu : b.unconstrained = true) (hL : 0 ≤ L)
    (hx : b.deltaX = L * Real.cos b.angle) (hy : b.deltaY = L * Real.sin b.angle) :
    b.setOrientation p rad =
      { b with
        angle := normalizeAngle rad
        x1 := L * Real.cos rad + b.x0
        y1 := L * Real.sin rad + b.y0
        deltaX := L * Real.cos rad
        deltaY := L * Real.sin rad
        length := L } := by
  rw [setOrientation_unconstrained b p rad hu]
  have h1 := Real.sin_sq_add_cos_sq b.angle
  have hdx : b.deltaX * Real.cos (rad - b.angle) - b.deltaY * Real.sin (rad - b.angle) =
      L * Real.cos rad := by
    rw [hx, hy, Real.cos_sub, Real.sin_sub]
    linear_combination (L * Real.cos rad) * h1
  have hdy : b.deltaX * Real.sin (rad - b.angle) + b.deltaY * Real.cos (rad - b.angle) =
      L * Real.sin rad := by
    rw [hx, hy, Real.cos_sub, Real.sin_sub]
    linear_combination (L * Real.sin rad) * h1
  rw [hdx, hdy]
  have hlen : Real.sqrt (L * Real.cos rad * (L * Real.cos rad) +
      L * Real.sin rad * (L * Real.sin rad)) = L := by
    rw [show L * Real.cos rad * (L * Real.cos rad) + L * Real.sin rad * (L * Real.sin rad) =
      L * L by linear_combination (L * L) * Real.sin_sq_add_cos_sq rad]
    exact Real.sqrt_mul_self hL
  rw [hlen]

/-- Evaluate one target-phase "aim" step when the distance to the running
target is a known value `r > 0`. -/
theorem aimStep (bx by' L tx ty r : ℝ) (hr : 0 < r)
    (hrr : r * r = (tx - bx) * (tx - bx) + (ty - by') * (ty - by')) :
    (tx - L * Real.cos (atan2 (ty - by') (tx - bx)),
     ty - L * Real.sin (atan2 (ty - by') (tx - bx))) =
    (tx - L * ((tx - bx) / r), ty - L * ((ty - by') / r)) := by
  have hne : ¬(tx - bx = 0 ∧ ty - by' = 0) := by
    rintro ⟨hh1, hh2⟩
    rw [hh1, hh2] at hrr
    nlinarith
  have hs : Real.sqrt ((tx - bx) * (tx - bx) + (ty - by') * (ty - by')) = r :=
    sqrt_val _ r hr.le hrr
  rw [cos_atan2 _ _ hne, sin_atan2, hs]

/-! ## Claim C9: idempotence of `moveEndEffector` -/

/-- Unfolding lemma for one target-phase step. -/
theorem targetSteps_cons (b : Bone) (rest : List Bone) (t : ℝ × ℝ) :
    targetSteps (b :: rest) t =
      (t.1 - b.length * Real.cos (atan2 (t.2 - b.y0) (t.1 - b.x0)),
       t.2 - b.length * Real.sin (atan2 (t.2 - b.y0) (t.1 - b.x0))) ::
      targetSteps rest
        (t.1 - b.length * Real.cos (atan2 (t.2 - b.y0) (t.1 - b.x0)),
         t.2 - b.length * Real.sin (atan2 (t.2 - b.y0) (t.1 - b.x0))) := rfl

theorem cos_normalizeAngle (x : ℝ) : Real.cos (normalizeAngle x) = Real.cos x := by
  unfold normalizeAngle
  split_ifs
  · rfl
  · rw [show 2 * π + x = x + 2 * π by ring]
    exact Real.cos_add_two_pi _

theorem sin_normalizeAngle (x : ℝ) : Real.sin (normalizeAngle x) = Real.sin x := by
  unfold normalizeAngle
  split_ifs
  · rfl
  · rw [show 2 * π + x = x + 2 * π by ring]
    exact Real.sin_add_two_pi _

/-- Bone lookup with the zeroed bone as default. -/
def boneAt (bs : List Bone) (i : Nat) : Bone := bs.getD i Bone.mk0

/-- The concrete chain of the idempotence counterexample: a 3-4 elbow,
root at the origin. -/
def c9chain : List Bone := [mkBone 0 0 0 (-3), mkBone 0 (-3) 4 (-3)]

/-- The root-to-elbow angle `atan2(4, -3)` produced by the first solve. -/
def c9rad1 : ℝ := atan2 4 (-3)

/-- The root bone after the first solve: rotated onto the positive x-axis. -/
def c9bone0A : Bone := (mkBone 0 0 0 (-3)).setTerminal 3 0

/-- The elbow bone after the first solve: initial joint `(3, 0)`, pointed at
the target along `atan2(4, -3)`. -/
def c9bone1A : Bone :=
  { x0 := 3, y0 := 0, x1 := -12 / 5 + 3, y1 := 16 / 5, deltaX := -12 / 5, deltaY := 16 / 5
    length := 4, angle := normalizeAngle c9rad1
    lowerLimit := -(2 * π), upperLimit := 2 * π, unconstrained := true }

theorem c9_cos_rad1 : Real.cos c9rad1 = -3 / 5 := by
  unfold c9rad1
  rw [cos_atan2 4 (-3) (by norm_num)]
  rw [show ((-3):ℝ) * (-3) + 4 * 4 = 25 by norm_num, sqrt_val 25 5 (by norm_num) (by norm_num)]

theorem c9_sin_rad1 : Real.sin c9rad1 = 4 / 5 := by
  unfold c9rad1
  rw [sin_atan2 4 (-3)]
  rw [show ((-3):ℝ) * (-3) + 4 * 4 = 25 by norm_num, sqrt_val 25 5 (by norm_num) (by norm_num)]

/-- If a cycle lands within the stopping threshold, the solver loop returns
that state with `resolved = true`. -/
theorem ccdLoop_stop (t : ℝ × ℝ) (fuel cycles : ℕ) (bs bs' : List Bone)
    (hc : ccdCycle bs t = bs')
    (he : (t.1 - (chainTerminal bs').1) ^ 2 + (t.2 - (chainTerminal bs').2) ^ 2 ≤ ccdStop) :
    ccdLoop t (fuel + 1) cycles bs = (bs', true) := by
  unfold ccdLoop
  simp only [hc]
  rw [if_pos (Or.inl he)]

theorem c9_b1len : (mkBone 0 (-3) 4 (-3)).length = 4 := by
  rw [mkBone_length]
  rw [show ((4:ℝ) - 0) * ((4:ℝ) - 0) + ((-3:ℝ) - (-3)) * ((-3:ℝ) - (-3)) = 16 by norm_num]
  exact sqrt_val 16 4 (by norm_num) (by norm_num)

theorem c9_b0len : (mkBone 0 0 0 (-3)).length = 3 := by
  rw [mkBone_length]
  rw [show ((0:ℝ) - 0) * ((0:ℝ) - 0) + ((-3:ℝ) - 0) * ((-3:ℝ) - 0) = 9 by norm_num]
  exact sqrt_val 9 3 (by norm_num) (by norm_num)

theorem c9_ts1 : targetSteps [mkBone 0 (-3) 4 (-3), mkBone 0 0 0 (-3)] (0, 4) =
    [(0, 0), (-3, 0)] := by
  rw [targetSteps_cons]
  simp only [mkBone_x0, mkBone_y0]
  rw [c9_b1len]
  rw [aimStep 0 (-3) 4 0 4 7 (by norm_num) (by norm_num)]
  norm_num
  rw [targetSteps_cons]
  simp only [mkBone_x0, mkBone_y0, Prod.fst_zero, Prod.snd_zero]
  rw [c9_b0len]
  rw [show (0:ℝ) - 0 = 0 by norm_num]
  rw [atan2_zero_zero, Real.cos_zero, Real.sin_zero]
  norm_num
  rfl

theorem c9_tg1 : ccdTargets c9chain (0, 4) = ([(0, 0), (-3, 0)], (-3, 0)) := by
  unfold ccdTargets
  rw [show c9chain.reverse = [mkBone 0 (-3) 4 (-3), mkBone 0 0 0 (-3)] from rfl, c9_ts1]
  rfl

theorem c9_cyc1 : ccdCycle c9chain (0, 4) = [c9bone0A, c9bone1A] := by
  show ccdCycle [mkBone 0 0 0 (-3), mkBone 0 (-3) 4 (-3)] (0, 4) = _
  unfold ccdCycle
  simp only [show ccdTargets [mkBone 0 0 0 (-3), mkBone 0 (-3) 4 (-3)] (0, 4) =
    ([(0, 0), (-3, 0)], (-3, 0)) from c9_tg1]
  simp only [mkBone_x0, mkBone_y0, positionRest]
  norm_num
  constructor
  · rfl
  · rw [show ((mkBone 0 0 0 (-3)).setTerminal 3 0).x1 = 3 from rfl,
        show ((mkBone 0 0 0 (-3)).setTerminal 3 0).y1 = 0 from rfl]
    rw [show (4:ℝ) - 0 = 4 by norm_num]
    have hang : ((mkBone 0 (-3) 4 (-3)).setInitial 3 0 false).angle = 0 := by
      show atan2 ((-3:ℝ) - (-3)) ((4:ℝ) - 0) = 0
      rw [show ((-3):ℝ) - (-3) = 0 by norm_num, show ((4):ℝ) - 0 = 4 by norm_num]
      exact atan2_zero_of_pos 4 (by norm_num)
    have hdx : ((mkBone 0 (-3) 4 (-3)).setInitial 3 0 false).deltaX =
        4 * Real.cos ((mkBone 0 (-3) 4 (-3)).setInitial 3 0 false).angle := by
      rw [hang, Real.cos_zero]
      show (4:ℝ) - 0 = 4 * 1
      norm_num
    have hdy : ((mkBone 0 (-3) 4 (-3)).setInitial 3 0 false).deltaY =
        4 * Real.sin ((mkBone 0 (-3) 4 (-3)).setInitial 3 0 false).angle := by
      rw [hang, Real.sin_zero]
      show ((-3):ℝ) - (-3) = 4 * 0
      norm_num
    rw [setOrientation_synced _ _ _ 4 rfl (by norm_num) hdx hdy]
    rw [show ((mkBone 0 (-3) 4 (-3)).setInitial 3 0 false).x0 = 3 from rfl,
        show ((mkBone 0 (-3) 4 (-3)).setInitial 3 0 false).y0 = 0 from rfl,
        show atan2 4 (-3) = c9rad1 from rfl, c9_cos_rad1, c9_sin_rad1]
    unfold c9bone1A
    rw [show ((mkBone 0 (-3) 4 (-3)).setInitial 3 0 false).lowerLimit = -(2*π) from rfl,
        show ((mkBone 0 (-3) 4 (-3)).setInitial 3 0 false).upperLimit = 2*π from rfl,
        show ((mkBone 0 (-3) 4 (-3)).setInitial 3 0 false).unconstrained = true from rfl]
    simp only [Bone.mk.injEq]
    norm_num

theorem c9_me_eq : moveEndEffector c9chain 0 4 false =
    ccdLoop (0, 4) (ccdMaxCycles + 1) 0 c9chain := by
  unfold moveEndEffector ccdBasic
  rw [if_neg (show ¬(false = true) from Bool.false_ne_true)]

theorem c9_call1 : moveEndEffector c9chain 0 4 false = ([c9bone0A, c9bone1A], true) := by
  rw [c9_me_eq]
  refine ccdLoop_stop (0, 4) ccdMaxCycles 0 c9chain [c9bone0A, c9bone1A] c9_cyc1 ?_
  have hterm : chainTerminal [c9bone0A, c9bone1A] = (-12 / 5 + 3, 16 / 5) := rfl
  rw [hterm]
  norm_num [ccdStop]

/-- Root-to-virtual-target distance arising in the second solve. -/
def c9rho : ℝ := Real.sqrt (32 / 5)

/-- x-coordinate of the root bone's terminal point after the second solve. -/
def c9X : ℝ := (36 / 5) / c9rho

/-- y-coordinate of the root bone's terminal point after the second solve. -/
def c9Y : ℝ := (12 / 5) / c9rho

/-- Final current target of the second solve's target phase. -/
def c9C2x : ℝ := 12 / 5 - (36 / 5) / c9rho

/-- Final current target of the second solve's target phase (y). -/
def c9C2y : ℝ := 4 / 5 - (12 / 5) / c9rho

/-- The root bone after the second solve: its terminal joint has moved off
the x-axis. -/
def c9bone0B : Bone := c9bone0A.setTerminal c9X c9Y

/-- The elbow-to-target angle of the second solve. -/
def c9rad2 : ℝ := atan2 (4 - c9Y) (0 - c9X)

/-- The elbow bone after the second solve. -/
def c9bone1B : Bone :=
  { x0 := c9X, y0 := c9Y
    x1 := 4 * Real.cos c9rad2 + c9X, y1 := 4 * Real.sin c9rad2 + c9Y
    deltaX := 4 * Real.cos c9rad2, deltaY := 4 * Real.sin c9rad2
    length := 4, angle := normalizeAngle c9rad2
    lowerLimit := -(2 * π), upperLimit := 2 * π, unconstrained := true }

theorem c9_rho_pos : 0 < c9rho := Real.sqrt_pos.mpr (by norm_num)

theorem c9_rho_sq : c9rho * c9rho = 32 / 5 := Real.mul_self_sqrt (by norm_num)

theorem c9_rho_lt : c9rho < 2.6 := by
  nlinarith [c9_rho_sq, c9_rho_pos]

theorem c9_rho_gt : 2.5 < c9rho := by
  nlinarith [c9_rho_sq, c9_rho_pos]

theorem c9_Y_pos : 0 < c9Y := by
  unfold c9Y c9rho
  positivity

theorem c9_Y_lt_one : c9Y < 1 := by
  have h := c9_rho_gt
  have hp := c9_rho_pos
  unfold c9Y
  rw [div_lt_one hp]
  nlinarith

theorem c9_X_pos : 0 < c9X := by
  unfold c9X c9rho
  positivity

theorem c9_ts2 : targetSteps [c9bone1A, c9bone0A] (0, 4) =
    [(12 / 5, 4 / 5), (c9C2x, c9C2y)] := by
  have hb0Alen : c9bone0A.length = 3 := by
    show Real.sqrt (((3:ℝ) - 0) * ((3:ℝ) - 0) + ((0:ℝ) - 0) * ((0:ℝ) - 0)) = 3
    rw [show ((3:ℝ) - 0) * ((3:ℝ) - 0) + ((0:ℝ) - 0) * ((0:ℝ) - 0) = 9 by norm_num]
    exact sqrt_val 9 3 (by norm_num) (by norm_num)
  rw [targetSteps_cons]
  simp only [show c9bone1A.x0 = (3:ℝ) from rfl, show c9bone1A.y0 = (0:ℝ) from rfl,
    show c9bone1A.length = (4:ℝ) from rfl]
  rw [aimStep 3 0 4 0 4 5 (by norm_num) (by norm_num)]
  norm_num
  rw [targetSteps_cons]
  simp only [show c9bone0A.x0 = (0:ℝ) from rfl, show c9bone0A.y0 = (0:ℝ) from rfl, hb0Alen]
  rw [aimStep 0 0 3 (12/5) (4/5) c9rho c9_rho_pos
    (by rw [c9_rho_sq]; norm_num)]
  have hpair : ((12:ℝ)/5 - 3 * ((12/5 - 0)/c9rho), (4:ℝ)/5 - 3 * ((4/5 - 0)/c9rho)) =
      ((c9C2x : ℝ), (c9C2y : ℝ)) := by
    unfold c9C2x c9C2y
    simp only [Prod.mk.injEq]
    constructor <;> ring
  rw [hpair]
  rfl

theorem c9_tg2 : ccdTargets [c9bone0A, c9bone1A] (0, 4) =
    ([(12 / 5, 4 / 5), (c9C2x, c9C2y)], (c9C2x, c9C2y)) := by
  unfold ccdTargets
  rw [show ([c9bone0A, c9bone1A] : List Bone).reverse = [c9bone1A, c9bone0A] from rfl, c9_ts2]
  rfl

theorem c9_cyc2 : ccdCycle [c9bone0A, c9bone1A] (0, 4) = [c9bone0B, c9bone1B] := by
  unfold ccdCycle
  simp only [c9_tg2]
  simp only [show c9bone0A.x0 = (0:ℝ) from rfl, show c9bone0A.y0 = (0:ℝ) from rfl, positionRest]
  rw [show (12:ℝ)/5 - (c9C2x - 0) = c9X by unfold c9C2x c9X; ring,
      show (4:ℝ)/5 - (c9C2y - 0) = c9Y by unfold c9C2y c9Y; ring]
  rw [show c9bone0A.setTerminal c9X c9Y = c9bone0B from rfl]
  have hX : (c9bone1A.setInitial c9bone0B.x1 c9bone0B.y1 false).setOrientation
      (some c9bone0B.orientation) (atan2 (4 - c9bone0B.y1) (0 - c9bone0B.x1)) = c9bone1B := by
    rw [show c9bone0B.x1 = c9X from rfl, show c9bone0B.y1 = c9Y from rfl]
    have hdx2 : (c9bone1A.setInitial c9X c9Y false).deltaX =
        4 * Real.cos (c9bone1A.setInitial c9X c9Y false).angle := by
      rw [show (c9bone1A.setInitial c9X c9Y false).angle = normalizeAngle c9rad1 from rfl,
        cos_normalizeAngle, c9_cos_rad1]
      show (-12:ℝ)/5 = 4 * (-3/5)
      norm_num
    have hdy2 : (c9bone1A.setInitial c9X c9Y false).deltaY =
        4 * Real.sin (c9bone1A.setInitial c9X c9Y false).angle := by
      rw [show (c9bone1A.setInitial c9X c9Y false).angle = normalizeAngle c9rad1 from rfl,
        sin_normalizeAngle, c9_sin_rad1]
      show (16:ℝ)/5 = 4 * (4/5)
      norm_num
    rw [setOrientation_synced _ _ _ 4 rfl (by norm_num) hdx2 hdy2]
    rw [show atan2 (4 - c9Y) (0 - c9X) = c9rad2 from rfl]
    rw [show (c9bone1A.setInitial c9X c9Y false).x0 = c9X from rfl,
        show (c9bone1A.setInitial c9X c9Y false).y0 = c9Y from rfl,
        show (c9bone1A.setInitial c9X c9Y false).lowerLimit = -(2*π) from rfl,
        show (c9bone1A.setInitial c9X c9Y false).upperLimit = 2*π from rfl,
        show (c9bone1A.setInitial c9X c9Y false).unconstrained = true from rfl]
    rfl
  rw [hX]

/-- Distance from the new root terminal to the true target in the second
solve. -/
def c9D : ℝ := Real.sqrt ((0 - c9X) * (0 - c9X) + (4 - c9Y) * (4 - c9Y))

theorem c9_XY_sq : c9X * c9X + c9Y * c9Y = 9 := by
  have hp := c9_rho_pos
  have hs := c9_rho_sq
  unfold c9X c9Y
  field_simp
  nlinarith [hs]

theorem c9_D_sq : c9D * c9D = 25 - 8 * c9Y := by
  have h := Real.mul_self_sqrt
    (show (0:ℝ) ≤ (0 - c9X) * (0 - c9X) + (4 - c9Y) * (4 - c9Y) from
      add_nonneg (mul_self_nonneg _) (mul_self_nonneg _))
  unfold c9D
  rw [h]
  linear_combination c9_XY_sq

theorem c9_D_ge : 2 ≤ c9D := by
  have h2 := c9_D_sq
  have hY := c9_Y_lt_one
  have hD0 : 0 ≤ c9D := Real.sqrt_nonneg _
  nlinarith

theorem c9_D_le : 6 ≤ 6 ∧ c9D ≤ 6 := by
  refine ⟨le_rfl, ?_⟩
  have h2 := c9_D_sq
  have hY := c9_Y_pos
  have hD0 : 0 ≤ c9D := Real.sqrt_nonneg _
  nlinarith

theorem c9_cos_rad2 : Real.cos c9rad2 = (0 - c9X) / c9D := by
  unfold c9rad2
  rw [cos_atan2 _ _ (by
    rintro ⟨h1, -⟩
    have := c9_X_pos
    nlinarith)]
  rfl

theorem c9_sin_rad2 : Real.sin c9rad2 = (4 - c9Y) / c9D := by
  unfold c9rad2
  rw [sin_atan2]
  rfl

theorem c9_err2 :
    ((0:ℝ) - (chainTerminal [c9bone0B, c9bone1B]).1) ^ 2 +
      ((4:ℝ) - (chainTerminal [c9bone0B, c9bone1B]).2) ^ 2 ≤ ccdStop := by
  have hterm : chainTerminal [c9bone0B, c9bone1B] =
      (4 * Real.cos c9rad2 + c9X, 4 * Real.sin c9rad2 + c9Y) := rfl
  rw [hterm]
  have hDpos : 0 < c9D := lt_of_lt_of_le (by norm_num) c9_D_ge
  have hAB : (0 - c9X) * (0 - c9X) + (4 - c9Y) * (4 - c9Y) = c9D * c9D := by
    have h := Real.mul_self_sqrt
      (show (0:ℝ) ≤ (0 - c9X) * (0 - c9X) + (4 - c9Y) * (4 - c9Y) from
        add_nonneg (mul_self_nonneg _) (mul_self_nonneg _))
    unfold c9D
    rw [h]
  have hkey : ((0:ℝ) - (4 * Real.cos c9rad2 + c9X)) ^ 2 +
      ((4:ℝ) - (4 * Real.sin c9rad2 + c9Y)) ^ 2 = (c9D - 4) ^ 2 := by
    rw [c9_cos_rad2, c9_sin_rad2]
    field_simp
    linear_combination (c9D - 4) ^ 2 * hAB
  rw [hkey]
  have h1 := c9_D_ge
  have h2 := c9_D_le.2
  show (c9D - 4) ^ 2 ≤ ccdStop
  rw [show ccdStop = 4 from rfl]
  nlinarith

theorem c9_call2 : moveEndEffector [c9bone0A, c9bone1A] 0 4 false =
    ([c9bone0B, c9bone1B], true) := by
  have hme : moveEndEffector [c9bone0A, c9bone1A] 0 4 false =
      ccdLoop (0, 4) (ccdMaxCycles + 1) 0 [c9bone0A, c9bone1A] := by
    unfold moveEndEffector ccdBasic
    rw [if_neg (show ¬(false = true) from Bool.false_ne_true)]
  rw [hme]
  exact ccdLoop_stop (0, 4) ccdMaxCycles 0 [c9bone0A, c9bone1A] [c9bone0B, c9bone1B]
    c9_cyc2 c9_err2

/-- Counterexample to claim C9 as stated: on the two-bone chain
`(0,0)-(0,-3)-(4,-3)` with target `(0, 4)`, the first `moveEndEffector` call
completes (resolved, within the `stop` threshold but not exactly on target),
and the second call with the same target runs another full CCD cycle that
moves the root bone's terminal joint from `(3, 0)` to about `(2.85, 0.95)` —
a pose change around `0.9`, far beyond the `1e-9` floating tolerance. -/
theorem moveEndEffector_idempotence_counterexample :
    (moveEndEffector c9chain 0 4 false).2 = true ∧
    1e-9 < |(boneAt (moveEndEffector (moveEndEffector c9chain 0 4 false).1 0 4 false).1 0).y1 -
      (boneAt (moveEndEffector c9chain 0 4 false).1 0).y1| := by
  rw [c9_call1]
  refine ⟨rfl, ?_⟩
  show 1e-9 < |(boneAt (moveEndEffector [c9bone0A, c9bone1A] 0 4 false).1 0).y1 -
    (boneAt [c9bone0A, c9bone1A] 0).y1|
  rw [c9_call2]
  show 1e-9 < |c9bone0B.y1 - c9bone0A.y1|
  rw [show c9bone0B.y1 = c9Y from rfl, show c9bone0A.y1 = (0:ℝ) from rfl, sub_zero,
    abs_of_pos c9_Y_pos]
  have hY : c9Y * c9rho = 12 / 5 := by
    have hne : c9rho ≠ 0 := ne_of_gt c9_rho_pos
    unfold c9Y
    field_simp
    ring
  have h1 := c9_rho_lt
  have h2 := c9_Y_pos
  nlinarith

/-! Amended C9: the second call is a no-op when the first solve reached the
target exactly. -/

/-- The cached fields agree with the joint coordinates: delta is the joint
difference, length its norm, and the raw angle matches `atan2` of the delta
up to the getter's normalisation.  Holds for bones whose pose was last
written by `setTerminal` or by the orientation setter. -/
def PoseSynced (b : Bone) : Prop :=
  b.deltaX = b.x1 - b.x0 ∧ b.deltaY = b.y1 - b.y0 ∧
  b.length = Real.sqrt (b.deltaX * b.deltaX + b.deltaY * b.deltaY) ∧
  normalizeAngle b.angle = normalizeAngle (atan2 b.deltaY b.deltaX)

/-- Equal pose: same joints and same reported orientation. -/
def samePose (a b : Bone) : Prop :=
  a.x0 = b.x0 ∧ a.y0 = b.y0 ∧ a.x1 = b.x1 ∧ a.y1 = b.y1 ∧ a.orientation = b.orientation

theorem samePose_refl (b : Bone) : samePose b b := ⟨rfl, rfl, rfl, rfl, rfl⟩

theorem normalizeAngle_nonneg (x : ℝ) (h : -(2 * π) ≤ x) : 0 ≤ normalizeAngle x := by
  unfold normalizeAngle
  split_ifs with h0
  · exact h0
  · linarith

theorem normalizeAngle_of_nonneg (x : ℝ) (h : 0 ≤ x) : normalizeAngle x = x := by
  unfold normalizeAngle
  rw [if_pos h]

theorem cos_sin_of_normEq (a b : ℝ) (h : normalizeAngle a = normalizeAngle b) :
    Real.cos (a - b) = 1 ∧ Real.sin (a - b) = 0 := by
  unfold normalizeAngle at h
  split_ifs at h with h1 h2 h2
  · rw [show a - b = 0 by linarith]
    exact ⟨Real.cos_zero, Real.sin_zero⟩
  · rw [show a - b = 2 * π by linarith]
    exact ⟨Real.cos_two_pi, Real.sin_two_pi⟩
  · rw [show a - b = -(2 * π) by linarith]
    rw [Real.cos_neg, Real.sin_neg, Real.cos_two_pi, Real.sin_two_pi]
    exact ⟨rfl, neg_zero⟩
  · rw [show a - b = 0 by linarith]
    exact ⟨Real.cos_zero, Real.sin_zero⟩

/-- `setTerminal` at the bone's own terminal point does not change the pose
of a synced bone (the raw angle may be renormalised, the getter value is
unchanged). -/
theorem setTerminal_self (b : Bone) (hs : PoseSynced b) :
    samePose (b.setTerminal b.x1 b.y1) b ∧ PoseSynced (b.setTerminal b.x1 b.y1) := by
  obtain ⟨hdx, hdy, hlen, hang⟩ := hs
  have hget : (b.setTerminal b.x1 b.y1).angle = atan2 (b.y1 - b.y0) (b.x1 - b.x0) := rfl
  constructor
  · refine ⟨rfl, rfl, rfl, rfl, ?_⟩
    show normalizeAngle (b.setTerminal b.x1 b.y1).angle = normalizeAngle b.angle
    rw [hget, ← hdx, ← hdy, hang]
  · refine ⟨rfl, rfl, rfl, ?_⟩
    rw [hget]
    show normalizeAngle (atan2 (b.y1 - b.y0) (b.x1 - b.x0)) =
      normalizeAngle (atan2 ((b.setTerminal b.x1 b.y1).deltaY) ((b.setTerminal b.x1 b.y1).deltaX))
    rfl

/-- The orientation setter at an angle equal (mod the getter's
normalisation) to the bone's current angle does not change the pose of a
synced bone, whether or not joint limits would have allowed a change. -/
theorem setOrientation_same (b : Bone) (p : Option ℝ) (rad : ℝ)
    (hr : -(2 * π) ≤ rad)
    (hnorm : normalizeAngle rad = normalizeAngle b.angle)
    (hs : PoseSynced b) :
    samePose (b.setOrientation p rad) b ∧ PoseSynced (b.setOrientation p rad) := by
  obtain ⟨hdx, hdy, hlen, hang⟩ := hs
  have hcs := cos_sin_of_normEq rad b.angle hnorm
  by_cases hA : (b.unconstrained = true ∨
      match p with
      | none => True
      | some p0 => Bone.isInLimit (Bone.limitLowerAbs p0 b.lowerLimit)
          (Bone.limitUpperAbs p0 b.upperLimit) (normalizeAngle rad))
  · have hrw : b.setOrientation p rad =
        { b with
          angle := normalizeAngle rad
          x1 := b.deltaX * Real.cos (rad - b.angle) - b.deltaY * Real.sin (rad - b.angle) + b.x0
          y1 := b.deltaX * Real.sin (rad - b.angle) + b.deltaY * Real.cos (rad - b.angle) + b.y0
          deltaX := b.deltaX * Real.cos (rad - b.angle) - b.deltaY * Real.sin (rad - b.angle)
          deltaY := b.deltaX * Real.sin (rad - b.angle) + b.deltaY * Real.cos (rad - b.angle)
          length := Real.sqrt
            ((b.deltaX * Real.cos (rad - b.angle) - b.deltaY * Real.sin (rad - b.angle)) *
              (b.deltaX * Real.cos (rad - b.angle) - b.deltaY * Real.sin (rad - b.angle)) +
            (b.deltaX * Real.sin (rad - b.angle) + b.deltaY * Real.cos (rad - b.angle)) *
              (b.deltaX * Real.sin (rad - b.angle) + b.deltaY * Real.cos (rad - b.angle))) } := by
      unfold Bone.setOrientation
      simp only []
      rw [if_pos hA]
      rw [cos_setter_delta, sin_setter_delta]
    rw [hrw]
    rw [hcs.1, hcs.2]
    have hx1 : b.deltaX * 1 - b.deltaY * 0 = b.deltaX := by ring
    have hy1 : b.deltaX * 0 + b.deltaY * 1 = b.deltaY := by ring
    rw [hx1, hy1]
    have hx1' : b.deltaX + b.x0 = b.x1 := by rw [hdx]; ring
    have hy1' : b.deltaY + b.y0 = b.y1 := by rw [hdy]; ring
    rw [hx1', hy1', ← hlen]
    constructor
    · refine ⟨rfl, rfl, rfl, rfl, ?_⟩
      show normalizeAngle (normalizeAngle rad) = normalizeAngle b.angle
      rw [normalizeAngle_of_nonneg _ (normalizeAngle_nonneg rad hr), hnorm]
    · refine ⟨hdx, hdy, hlen, ?_⟩
      show normalizeAngle (normalizeAngle rad) = normalizeAngle (atan2 b.deltaY b.deltaX)
      rw [normalizeAngle_of_nonneg _ (normalizeAngle_nonneg rad hr), hnorm, hang]
  · have hrw : b.setOrientation p rad = b := by
      unfold Bone.setOrientation
      simp only []
      rw [if_neg hA]
    rw [hrw]
    exact ⟨samePose_refl b, hdx, hdy, hlen, hang⟩

/-- Aiming from a synced bone's initial joint at its own terminal point and
stepping back by its length lands exactly on the initial joint. -/
theorem aim_back (b : Bone) (hs : PoseSynced b) :
    ((b.x1 - b.length * Real.cos (atan2 (b.y1 - b.y0) (b.x1 - b.x0)),
      b.y1 - b.length * Real.sin (atan2 (b.y1 - b.y0) (b.x1 - b.x0))) : ℝ × ℝ) =
    (b.x0, b.y0) := by
  obtain ⟨hdx, hdy, hlen, _⟩ := hs
  rw [show b.y1 - b.y0 = b.deltaY from by rw [hdy], show b.x1 - b.x0 = b.deltaX from by rw [hdx]]
  by_cases hz : b.deltaX = 0 ∧ b.deltaY = 0
  · have hl0 : b.length = 0 := by
      rw [hlen, hz.1, hz.2]
      norm_num
    rw [hl0]
    have h1 : b.x1 - b.x0 = 0 := by rw [← hdx]; exact hz.1
    have h2 : b.y1 - b.y0 = 0 := by rw [← hdy]; exact hz.2
    simp only [Prod.mk.injEq]
    constructor
    · rw [zero_mul, sub_zero]; linarith
    · rw [zero_mul, sub_zero]; linarith
  · have hpos : 0 < b.deltaX * b.deltaX + b.deltaY * b.deltaY := by
      rcases not_and_or.mp hz with h | h
      · nlinarith [mul_self_pos.mpr h, mul_self_nonneg b.deltaY]
      · nlinarith [mul_self_pos.mpr h, mul_self_nonneg b.deltaX]
    have hr : 0 < Real.sqrt (b.deltaX * b.deltaX + b.deltaY * b.deltaY) := Real.sqrt_pos.mpr hpos
    have hne : Real.sqrt (b.deltaX * b.deltaX + b.deltaY * b.deltaY) ≠ 0 := ne_of_gt hr
    rw [cos_atan2 _ _ hz, sin_atan2, hlen]
    have hcx : Real.sqrt (b.deltaX * b.deltaX + b.deltaY * b.deltaY) *
        (b.deltaX / Real.sqrt (b.deltaX * b.deltaX + b.deltaY * b.deltaY)) = b.deltaX := by
      field_simp
    have hcy : Real.sqrt (b.deltaX * b.deltaX + b.deltaY * b.deltaY) *
        (b.deltaY / Real.sqrt (b.deltaX * b.deltaX + b.deltaY * b.deltaY)) = b.deltaY := by
      field_simp
    rw [hcx, hcy]
    have h1 : b.x1 - b.deltaX = b.x0 := by rw [hdx]; ring
    have h2 : b.y1 - b.deltaY = b.y0 := by rw [hdy]; ring
    rw [h1, h2]

/-- On a synced chain presented terminal-first (each bone's initial joint is
the next listed bone's terminal joint) whose first bone's terminal is the
current target, the target phase reproduces the bones' initial joints. -/
theorem targetSteps_fixed (l : List Bone) :
    ∀ t : ℝ × ℝ,
      List.Chain' (fun a b : Bone => a.x0 = b.x1 ∧ a.y0 = b.y1) l →
      (∀ b ∈ l, PoseSynced b) →
      (∀ b ∈ l.head?, ((b.x1, b.y1) : ℝ × ℝ) = t) →
      targetSteps l t = l.map (fun b => (b.x0, b.y0)) := by
  induction l with
  | nil => intro t _ _ _; rfl
  | cons b rest ih =>
    intro t hchain hsync hhead
    have ht : ((b.x1, b.y1) : ℝ × ℝ) = t := hhead b rfl
    rw [← ht, targetSteps_cons]
    have hp1 : (((b.x1, b.y1) : ℝ × ℝ)).1 = b.x1 := rfl
    have hp2 : (((b.x1, b.y1) : ℝ × ℝ)).2 = b.y1 := rfl
    rw [hp1, hp2, List.map_cons]
    have hstep := aim_back b (hsync b (List.mem_cons_self b rest))
    rw [hstep]
    congr 1
    apply ih (b.x0, b.y0) hchain.tail
      (fun b' hb' => hsync b' (List.mem_cons_of_mem _ hb'))
    intro b' hb'
    cases rest with
    | nil => exact absurd hb' (by simp)
    | cons b2 rest2 =>
      rw [Option.mem_def] at hb'
      have hb2 : b2 = b' := Option.some.inj hb'
      obtain ⟨hR, _⟩ := List.chain'_cons.mp hchain
      rw [← hb2, ← hR.1, ← hR.2]

/-- The record list carries, for each interior bone, the initial joint of
the bone after it (exactly what the target phase produced on an exact hit). -/
def RecsInit : List Bone → List (ℝ × ℝ) → Prop
  | _ :: b2 :: rest, r :: rs => r = (b2.x0, b2.y0) ∧ RecsInit (b2 :: rest) rs
  | _ :: _ :: _, [] => False
  | _, _ => True

theorem recsInit_of_map : ∀ (l : List Bone) (extra : List (ℝ × ℝ)),
    RecsInit l (l.tail.map (fun b => (b.x0, b.y0)) ++ extra)
  | [], _ => trivial
  | [_], _ => trivial
  | _ :: b2 :: rest, extra => ⟨rfl, recsInit_of_map (b2 :: rest) extra⟩

/-- The position phase is a pose-wise no-op when the previous bone was
re-posed to its old pose, each record is the following bone's initial joint,
the shift `delta` is zero, and the true target is the chain's existing
terminal point. -/
theorem positionRest_fixed (t : ℝ × ℝ) :
    ∀ (rest : List Bone) (prevN prevO : Bone) (recs : List (ℝ × ℝ)),
      samePose prevN prevO →
      List.Chain' ContRel (prevO :: rest) →
      (∀ b ∈ rest, PoseSynced b) →
      RecsInit rest recs →
      (∀ b ∈ (prevO :: rest).getLast?, ((b.x1, b.y1) : ℝ × ℝ) = t) →
      List.Forall₂ samePose (positionRest t (0, 0) prevN rest recs) rest := by
  intro rest
  induction rest with
  | nil => intro prevN prevO recs _ _ _ _ _; exact List.Forall₂.nil
  | cons b rest' ih =>
    intro prevN prevO recs hsp hchain hsync hrecs hlast
    obtain ⟨hRpb, hchain'⟩ := List.chain'_cons.mp hchain
    have hpx : prevN.x1 = b.x0 := hsp.2.2.1.trans hRpb.1.symm
    have hpy : prevN.y1 = b.y0 := hsp.2.2.2.1.trans hRpb.2.symm
    have hsb : PoseSynced b := hsync b (List.mem_cons_self b rest')
    cases rest' with
    | nil =>
      have hpr : positionRest t (0, 0) prevN [b] recs =
          [(b.setInitial prevN.x1 prevN.y1 false).setOrientation (some prevN.orientation)
            (atan2 (t.2 - prevN.y1) (t.1 - prevN.x1))] := rfl
      rw [hpr, hpx, hpy]
      have ht : ((b.x1, b.y1) : ℝ × ℝ) = t := by
        apply hlast b
        rw [Option.mem_def]
        rfl
      rw [← ht]
      have hp1 : (((b.x1, b.y1) : ℝ × ℝ)).1 = b.x1 := rfl
      have hp2 : (((b.x1, b.y1) : ℝ × ℝ)).2 = b.y1 := rfl
      rw [hp1, hp2]
      have hbi : b.setInitial b.x0 b.y0 false = b := rfl
      rw [hbi]
      rw [show b.y1 - b.y0 = b.deltaY from by rw [hsb.2.1],
        show b.x1 - b.x0 = b.deltaX from by rw [hsb.1]]
      have hr2 : -(2 * π) ≤ atan2 b.deltaY b.deltaX := by
        have h1 := neg_pi_lt_atan2 b.deltaY b.deltaX
        have h2 := Real.pi_pos
        linarith
      have hnorm : normalizeAngle (atan2 b.deltaY b.deltaX) = normalizeAngle b.angle :=
        hsb.2.2.2.symm
      exact List.Forall₂.cons
        (setOrientation_same b (some prevN.orientation) _ hr2 hnorm hsb).1 List.Forall₂.nil
    | cons b2 rest'' =>
      cases recs with
      | nil => exact (hrecs : False).elim
      | cons r rs =>
        obtain ⟨hr1, hrecs'⟩ := hrecs
        subst hr1
        have hRb2 : ContRel b b2 := (List.chain'_cons.mp hchain').1
        have hpr : positionRest t (0, 0) prevN (b :: b2 :: rest'') ((b2.x0, b2.y0) :: rs) =
            ((b.setInitial prevN.x1 prevN.y1 false).setTerminal
                ((((b2.x0, b2.y0) : ℝ × ℝ)).1 - 0) ((((b2.x0, b2.y0) : ℝ × ℝ)).2 - 0)) ::
              positionRest t (0, 0)
                ((b.setInitial prevN.x1 prevN.y1 false).setTerminal
                  ((((b2.x0, b2.y0) : ℝ × ℝ)).1 - 0) ((((b2.x0, b2.y0) : ℝ × ℝ)).2 - 0))
                (b2 :: rest'') rs := rfl
        rw [hpr, hpx, hpy]
        have hbi : b.setInitial b.x0 b.y0 false = b := rfl
        rw [hbi]
        have hq1 : (((b2.x0, b2.y0) : ℝ × ℝ)).1 - 0 = b.x1 := by
          show b2.x0 - 0 = b.x1
          rw [sub_zero]
          exact hRb2.1
        have hq2 : (((b2.x0, b2.y0) : ℝ × ℝ)).2 - 0 = b.y1 := by
          show b2.y0 - 0 = b.y1
          rw [sub_zero]
          exact hRb2.2
        rw [hq1, hq2]
        obtain ⟨hsame, _⟩ := setTerminal_self b hsb
        refine List.Forall₂.cons hsame ?_
        apply ih (b.setTerminal b.x1 b.y1) b rs hsame hchain'
          (fun b' hb' => hsync b' (List.mem_cons_of_mem _ hb')) hrecs'
        intro b' hb'
        apply hlast b'
        rw [Option.mem_def] at hb' ⊢
        rw [List.getLast?_cons_cons]
        exact hb'

/-- Chains with pointwise equal poses have the same terminal point. -/
theorem chainTerminal_congr : ∀ {as bs : List Bone},
    List.Forall₂ samePose as bs → chainTerminal as = chainTerminal bs := by
  intro as bs h
  induction h with
  | nil => rfl
  | @cons a b as' bs' hab htail ih =>
    cases htail with
    | nil =>
      show ((a.x1, a.y1) : ℝ × ℝ) = (b.x1, b.y1)
      rw [hab.2.2.1, hab.2.2.2.1]
    | @cons a2 b2 as'' bs'' h1 h2 =>
      have e1 : chainTerminal (a :: a2 :: as'') = chainTerminal (a2 :: as'') := by
        unfold chainTerminal
        rw [List.getLast?_cons_cons]
      have e2 : chainTerminal (b :: b2 :: bs'') = chainTerminal (b2 :: bs'') := by
        unfold chainTerminal
        rw [List.getLast?_cons_cons]
      rw [e1, e2]
      exact ih

/-- One full CCD cycle is a pose-wise no-op on a continuous, synced chain of
at least two bones whose terminal point already equals the target. -/
theorem ccdCycle_fixed (bs : List Bone) (x y : ℝ)
    (hlen : 2 ≤ bs.length)
    (hcont : ChainContinuous bs)
    (hsync : ∀ b ∈ bs, PoseSynced b)
    (htgt : chainTerminal bs = (x, y)) :
    List.Forall₂ samePose (ccdCycle bs (x, y)) bs := by
  rcases bs with _ | ⟨b0, bs'⟩
  · exact absurd hlen (by simp)
  rcases bs' with _ | ⟨b1, rest⟩
  · exact absurd hlen (by simp)
  have hlastP : ∀ b ∈ (b0 :: b1 :: rest).getLast?, ((b.x1, b.y1) : ℝ × ℝ) = (x, y) := by
    intro b hb
    rw [Option.mem_def] at hb
    have h2 := htgt
    unfold chainTerminal at h2
    rw [hb] at h2
    exact h2
  have hchainR : List.Chain' (fun a b : Bone => a.x0 = b.x1 ∧ a.y0 = b.y1)
      ((b0 :: b1 :: rest).reverse) := by
    rw [List.chain'_reverse]
    exact hcont
  have hheadR : ∀ b ∈ ((b0 :: b1 :: rest).reverse).head?, ((b.x1, b.y1) : ℝ × ℝ) = (x, y) := by
    intro b hb
    rw [Option.mem_def, List.head?_reverse] at hb
    exact hlastP b (Option.mem_def.mpr hb)
  have hts : targetSteps ((b0 :: b1 :: rest).reverse) (x, y) =
      ((b0 :: b1 :: rest).reverse).map (fun b => (b.x0, b.y0)) :=
    targetSteps_fixed _ (x, y) hchainR (fun b hb => hsync b (List.mem_reverse.mp hb)) hheadR
  have htg : ccdTargets (b0 :: b1 :: rest) (x, y) =
      (((b1 :: rest).map (fun b => (b.x0, b.y0))) ++ [(b0.x0, b0.y0)], (b0.x0, b0.y0)) := by
    unfold ccdTargets
    rw [hts, List.map_reverse, List.reverse_reverse]
    rfl
  have hcyc : ccdCycle (b0 :: b1 :: rest) (x, y) =
      (b0.setTerminal (b1.x0 - (b0.x0 - b0.x0)) (b1.y0 - (b0.y0 - b0.y0))) ::
        positionRest (x, y) (b0.x0 - b0.x0, b0.y0 - b0.y0)
          (b0.setTerminal (b1.x0 - (b0.x0 - b0.x0)) (b1.y0 - (b0.y0 - b0.y0)))
          (b1 :: rest) (rest.map (fun b => (b.x0, b.y0)) ++ [(b0.x0, b0.y0)]) := by
    unfold ccdCycle
    simp only []
    rw [htg]
    rfl
  rw [hcyc, sub_self, sub_self, sub_zero, sub_zero]
  have hR01 : ContRel b0 b1 := (List.chain'_cons.mp hcont).1
  rw [hR01.1, hR01.2]
  obtain ⟨hsame0, _⟩ := setTerminal_self b0 (hsync b0 (List.mem_cons_self b0 _))
  refine List.Forall₂.cons hsame0 ?_
  apply positionRest_fixed (x, y) (b1 :: rest) (b0.setTerminal b0.x1 b0.y1) b0 _ hsame0 hcont
    (fun b hb => hsync b (List.mem_cons_of_mem _ hb))
    (recsInit_of_map (b1 :: rest) [(b0.x0, b0.y0)]) hlastP

/-- C9 (amended): the spec's idempotence sentence fails in general (see the
counterexample: a first call that merely converges within tolerance leaves a
residual error that a second call keeps reducing), but it does hold in the
exact-hit case: for a chain of at least two bones that is continuous, whose
cached delta/length/orientation fields are in sync with its joint
coordinates, and whose end effector already sits exactly at the target, a
`moveEndEffector(x, y, false)` call reports success and changes no bone's
pose (endpoints and reported orientation are all unchanged). -/
theorem moveEndEffector_exact_target_idempotent (bs : List Bone) (x y : ℝ)
    (hlen : 2 ≤ bs.length)
    (hcont : ChainContinuous bs)
    (hsync : ∀ b ∈ bs, PoseSynced b)
    (htgt : chainTerminal bs = (x, y)) :
    (moveEndEffector bs x y false).2 = true ∧
      List.Forall₂ samePose (moveEndEffector bs x y false).1 bs := by
  have hme : moveEndEffector bs x y false = ccdLoop (x, y) (ccdMaxCycles + 1) 0 bs := by
    unfold moveEndEffector ccdBasic
    rw [if_neg (show ¬(false = true) from Bool.false_ne_true)]
  have hcyc := ccdCycle_fixed bs x y hlen hcont hsync htgt
  have hterm : chainTerminal (ccdCycle bs (x, y)) = (x, y) :=
    (chainTerminal_congr hcyc).trans htgt
  have hloop : ccdLoop (x, y) (ccdMaxCycles + 1) 0 bs = (ccdCycle bs (x, y), true) := by
    refine ccdLoop_stop (x, y) ccdMaxCycles 0 bs (ccdCycle bs (x, y)) rfl ?_
    rw [hterm]
    show (x - x) ^ 2 + (y - y) ^ 2 ≤ ccdStop
    norm_num [ccdStop]
  rw [hme, hloop]
  exact ⟨rfl, hcyc⟩

theorem moveEndEffector_exact_target_idempotent_witness :
    (2 ≤ ([mkBone 0 0 3 0, mkBone 3 0 7 0] : List Bone).length ∧
      ChainContinuous [mkBone 0 0 3 0, mkBone 3 0 7 0] ∧
      (∀ b ∈ [mkBone 0 0 3 0, mkBone 3 0 7 0], PoseSynced b) ∧
      chainTerminal [mkBone 0 0 3 0, mkBone 3 0 7 0] = (7, 0)) ∧
    ((moveEndEffector [mkBone 0 0 3 0, mkBone 3 0 7 0] 7 0 false).2 = true ∧
      List.Forall₂ samePose (moveEndEffector [mkBone 0 0 3 0, mkBone 3 0 7 0] 7 0 false).1
        [mkBone 0 0 3 0, mkBone 3 0 7 0]) := by
  have hsync : ∀ b ∈ ([mkBone 0 0 3 0, mkBone 3 0 7 0] : List Bone), PoseSynced b := by
    intro b hb
    simp only [List.mem_cons, List.not_mem_nil, or_false] at hb
    rcases hb with rfl | rfl
    · exact ⟨rfl, rfl, rfl, rfl⟩
    · exact ⟨rfl, rfl, rfl, rfl⟩
  have hcont : ChainContinuous [mkBone 0 0 3 0, mkBone 3 0 7 0] :=
    List.Chain.cons ⟨rfl, rfl⟩ List.Chain.nil
  exact ⟨⟨by norm_num, hcont, hsync, rfl⟩,
    moveEndEffector_exact_target_idempotent [mkBone 0 0 3 0, mkBone 3 0 7 0] 7 0
      (by norm_num) hcont hsync rfl⟩

end

end Kinematics
